import Mathlib

/-!
Verification development for the pathway declarative dataflow layer
(python/pathway/internals): schema model (`schema.py`), trace and error
attribution (`trace.py`), row transformer declaration (`row_transformer.py`),
table slices (`table_slice.py`) and the expression formatter
(`expression_printer.py`), shallowly embedded in Lean.

Python dicts are embedded as association lists in insertion order with the
dict-assignment semantics (`dictInsert`: overwrite in place, else append).
Fallible Python code (raise) is embedded as `Except PyErr`.
-/

deriving instance DecidableEq for Except

namespace PathwaySpec

/-- Kinds of Python exceptions raised by the embedded code. -/
inductive PyErr where
  | valueError
  | attributeError
  | keyError
  | typeError
  | assertionError
  | runtimeError
  deriving DecidableEq, Repr

/-- Python runtime values, as far as the embedded code stores them
(default values of columns, constants in expressions).  `Value.none` is
the Python value `None`; it is distinct from the absence of a value,
which the embedding writes as `Option.none` around a `Value`. -/
inductive Value where
  | none
  | bool (b : Bool)
  | int (n : Int)
  | str (s : String)
  deriving DecidableEq, Repr

/-- Python `repr` on the embedded values (used by `eval_const`). -/
def pyRepr : Value → String
  | Value.none => "None"
  | Value.bool true => "True"
  | Value.bool false => "False"
  | Value.int n => toString n
  | Value.str s => "'" ++ s ++ "'"

/-- Modelled from the spec: `dtype.py` is not part of the given sources, only
its callers are.  The spec describes a Dtype as "a semantic type tag
(primitive, optional, list/array, tuple, duration/timestamp variants, or
any)"; the claims exercise the primitive, optional and any tags, which are
the ones embedded here. -/
inductive DType where
  | int
  | float
  | bool
  | str
  | noneType
  | anyType
  | option (t : DType)
  deriving DecidableEq, Repr

/-- Modelled from the spec: `dtype_issubclass` of the missing `dtype.py`.
The spec: "`a`'s dtype is assignable to `b`'s dtype (covariant
numeric/optional widening allowed; exact match required otherwise)". -/
def dtype_issubclass : DType → DType → Bool
  | DType.option a, DType.option b => dtype_issubclass a b
  | a, DType.option b => dtype_issubclass a b
  | DType.int, DType.float => true
  | a, b => a == b

/-- Python dict assignment `d[k] = v`: overwrites in place when the key is
present, otherwise appends at the end. -/
def dictInsert {α β : Type} [DecidableEq α] (d : List (α × β)) (k : α) (v : β) :
    List (α × β) :=
  if k ∈ d.map Prod.fst then d.map (fun p => if p.1 = k then (p.1, v) else p)
  else d ++ [(k, v)]

/-- First-occurrence deduplication, the order `StableSet` and Python dict
key views produce (filtering after the recursive call keeps the definition
structurally recursive; the result is first occurrences in order). -/
def dedupFirst {α : Type} [DecidableEq α] : List α → List α
  | [] => []
  | x :: xs => x :: (dedupFirst xs).filter (fun y => y ≠ x)

/-- `ColumnDefinition` dataclass of `schema.py`.  The dataclass field
`default_value` defaults to the private `_no_default_value_marker` sentinel;
the embedding renders the sentinel as `Option.none` and an explicitly
supplied Python value `v` (possibly the Python `None`) as `some v`, keeping
the three states apart.  `dtype` is `None` or a `DType`. -/
structure ColumnDefinition where
  primary_key : Bool
  default_value : Option Value
  dtype : Option DType
  cd_name : Option String
  deriving DecidableEq, Repr

/-- `ColumnDefinition.has_default_value`: the source compares
`self.default_value != _no_default_value_marker`; no actual Python value
equals the private marker object, so this is exactly "a value was
supplied". -/
def has_default_value (c : ColumnDefinition) : Bool :=
  c.default_value.isSome

/-- `column_definition(primary_key=..., default_value=..., dtype=..., name=...)`
of `schema.py`: builds the dataclass from its keyword arguments (each
argument is explicit here; an absent `default_value` is `Option.none`, an
absent `dtype` or `name` is the Python `None`). -/
def column_definition (pk : Bool) (dv : Option Value) (dt : Option DType)
    (nm : Option String) : ColumnDefinition :=
  ⟨pk, dv, dt, nm⟩

/-- A constructed schema class: its `__annotations__` (`get_type_hints`),
its `_cls_fields` dict as it stands after `SchemaMetaclass.__init__` ran
(`_create_column_definitions` fills a `None` dtype in place on the field
objects), and the computed `__columns__` dict. -/
structure Schema where
  sname : String
  annotations : List (String × DType)
  fields : List (String × ColumnDefinition)
  columns : List (String × ColumnDefinition)
  deriving DecidableEq, Repr

/-- The fresh `ColumnDefinition(dtype=dtype)` that `_create_column_definitions`
uses when a column name has no field entry. -/
def defaultColumnDefinition (dt : DType) : ColumnDefinition :=
  ⟨false, Option.none, some dt, Option.none⟩

/-- The annotation-derived dtype of one name in
`_create_column_definitions`: `DType(annotations[name])` when annotated,
else `DType(Any)`. -/
def stepDtype (ann : List (String × DType)) (n : String) : DType :=
  (List.lookup n ann).getD DType.anyType

/-- The column definition `_create_column_definitions` ends up with for one
name: the field entry (or a fresh definition), with a `None` dtype filled in
from the annotation-derived dtype. -/
def stepCol (ann : List (String × DType)) (fld : List (String × ColumnDefinition))
    (n : String) : ColumnDefinition :=
  let dt := stepDtype ann n
  let c := (List.lookup n fld).getD (defaultColumnDefinition dt)
  if c.dtype = Option.none then ⟨c.primary_key, c.default_value, some dt, c.cd_name⟩
  else c

/-- The key under which `_create_column_definitions` stores the column:
`column.name or name`. -/
def stepName (fld : List (String × ColumnDefinition)) (n : String) : String :=
  match List.lookup n fld with
  | some c => c.cd_name.getD n
  | Option.none => n

/-- The `dtype != DType(Any) and dtype != column.dtype` guard of
`_create_column_definitions` (checked after the fill-in), as "no error". -/
def stepCheck (ann : List (String × DType)) (fld : List (String × ColumnDefinition))
    (n : String) : Bool :=
  let dt := stepDtype ann n
  !(decide (dt ≠ DType.anyType ∧ (stepCol ann fld n).dtype ≠ some dt))

/-- Python in-place mutation `column.dtype = dtype` seen through the fields
dict: the entry for `n`, if any, is replaced. -/
def updateField (fld : List (String × ColumnDefinition)) (n : String)
    (c : ColumnDefinition) : List (String × ColumnDefinition) :=
  fld.map (fun p => if p.1 = n then (p.1, c) else p)

/-- The loop of `_create_column_definitions` over the stable set of names:
threads the (mutated) fields dict and accumulates the `columns` dict;
raises `TypeError` when an annotation conflicts with a column definition. -/
def processColumns (ann : List (String × DType)) :
    List String → List (String × ColumnDefinition) → List (String × ColumnDefinition) →
    Except PyErr (List (String × ColumnDefinition) × List (String × ColumnDefinition))
  | [], fld, cols => Except.ok (fld, cols)
  | n :: rest, fld, cols =>
    if stepCheck ann fld n then
      processColumns ann rest (updateField fld n (stepCol ann fld n))
        (dictInsert cols (stepName fld n) (stepCol ann fld n))
    else Except.error PyErr.typeError

/-- `StableSet((*annotations.keys(), *fields.keys()))`. -/
def schemaKeys (ann : List (String × DType)) (fld : List (String × ColumnDefinition)) :
    List String :=
  dedupFirst (ann.map Prod.fst ++ fld.map Prod.fst)

/-- `_schema_builder` followed by `SchemaMetaclass.__init__`: runs
`_create_column_definitions` on the class's annotations and fields and
stores the resulting columns (and the fields as mutated). -/
def mkSchema (nm : String) (ann : List (String × DType))
    (fld : List (String × ColumnDefinition)) : Except PyErr Schema :=
  match processColumns ann (schemaKeys ann fld) fld [] with
  | Except.ok (fld2, cols) => Except.ok ⟨nm, ann, fld2, cols⟩
  | Except.error e => Except.error e

/-- `schema_from_types(name, **kwargs)`: a schema class whose annotations are
exactly the keyword arguments and that has no fields. -/
def schema_from_types (nm : String) (kwargs : List (String × DType)) :
    Except PyErr Schema :=
  mkSchema nm kwargs []

/-- `ChainMap(*ms)[k]`: the first mapping that holds `k` wins. -/
def firstLookup {β : Type} (ms : List (List (String × β))) (k : String) : Option β :=
  match ms with
  | [] => Option.none
  | m :: rest => (List.lookup k m).orElse (fun _ => firstLookup rest k)

/-- `dict(ChainMap(*ms))`: key order is first occurrence over the reversed
mapping list (`ChainMap.__iter__` updates a dict in reversed order), while
each value comes from the first mapping holding the key. -/
def dictChain {β : Type} (ms : List (List (String × β))) : List (String × β) :=
  (dedupFirst ((ms.reverse.map (fun m => m.map Prod.fst)).flatten)).filterMap
    (fun k => (firstLookup ms k).map (fun v => (k, v)))

/-- `schema_add(*schemas)` of `schema.py`: chain-merges the annotation dicts
and the field dicts, asserts that no key was lost to duplication (sizes must
equal the sums), and builds the combined schema class. -/
def schema_add (schemas : List Schema) : Except PyErr Schema :=
  let annots_list := schemas.map Schema.annotations
  let ann := dictChain annots_list
  if ann.length ≠ (annots_list.map List.length).sum then Except.error PyErr.assertionError
  else
    let fields_list := schemas.map Schema.fields
    let fld := dictChain fields_list
    if fld.length ≠ (fields_list.map List.length).sum then Except.error PyErr.assertionError
    else mkSchema (String.intercalate "_" (schemas.map Schema.sname)) ann fld

/-- `SchemaMetaclass.as_dict`: `{name: column.dtype for name, column in
self.__columns__.items()}` (after construction every stored dtype is a
`some`). -/
def as_dict (s : Schema) : List (String × Option DType) :=
  s.columns.map (fun p => (p.1, p.2.dtype))

/-- `SchemaMetaclass.column_names` (= the keys of `as_dict`). -/
def column_names (s : Schema) : List String :=
  (as_dict s).map Prod.fst

/-- `SchemaMetaclass.primary_key_columns`: the names of the columns with
`primary_key`, or `None` when that list is empty (`pkey_fields if
pkey_fields else None`). -/
def primary_key_columns (s : Schema) : Option (List String) :=
  let pkey_fields := (s.columns.filter (fun p => p.2.primary_key)).map Prod.fst
  if pkey_fields = [] then Option.none else some pkey_fields

/-- `schema[k]` as `is_subschema` reads it: the dtype stored in `as_dict`
under `k` (always a `some` on a constructed schema; the fallback is never
hit where the function is used). -/
def schemaGet (s : Schema) (k : String) : DType :=
  match List.lookup k (as_dict s) with
  | some (some d) => d
  | some Option.none => DType.anyType
  | Option.none => DType.anyType

/-- Python `KeysView` equality (`left.keys() != right.keys()`): equality as
sets of names. -/
def sameKeySet (l r : List String) : Bool :=
  l.all (fun k => r.contains k) && r.all (fun k => l.contains k)

/-- `is_subschema(left, right)` of `schema.py`. -/
def is_subschema (left right : Schema) : Bool :=
  if sameKeySet (column_names left) (column_names right) then
    (column_names left).all (fun k => dtype_issubclass (schemaGet left k) (schemaGet right k))
  else false

/-! ## Trace and error attribution (`trace.py`) -/

/-- A stack frame as `Trace.from_traceback` captures it from
`traceback.extract_stack()`. -/
structure Frame where
  filename : String
  line_number : Option Nat
  line : Option String
  function : String
  deriving DecidableEq, Repr

/-- Python `pattern in s` on strings. -/
def strContains (s pat : String) : Bool :=
  decide (List.IsInfix pat.toList s.toList)

/-- `Frame.is_external` of `trace.py`: a test file counts as external, any
other frame is external iff its filename matches none of the internal
patterns. -/
def Frame.is_external (f : Frame) : Bool :=
  if strContains f.filename "pathway/tests/test_" then true
  else
    ["pathway/tests", "pathway/internals", "pathway/io", "pathway/stdlib",
      "pathway/debug", "@beartype"].all
      (fun pat => !(strContains f.filename pat))

/-- `Frame.is_marker` of `trace.py`. -/
def Frame.is_marker (f : Frame) : Bool :=
  f.function == "_pathway_trace_marker"

/-- A captured trace: the frame list and the attributed user frame. -/
structure Trace where
  frames : List Frame
  user_frame : Option Frame
  deriving DecidableEq, Repr

/-- The frame-scanning loop of `Trace.from_traceback`: walk the frames in
list order, stop at the first marker frame, and remember the last external
frame seen so far. -/
def findUserFrame : List Frame → Option Frame → Option Frame
  | [], acc => acc
  | f :: rest, acc =>
    if Frame.is_marker f then acc
    else findUserFrame rest (if Frame.is_external f then some f else acc)

/-- `Trace.from_traceback`, taking the captured stack (already without the
`from_traceback` frame itself, which the source strips with `[:-1]`) as
input. -/
def Trace.from_traceback (stack : List Frame) : Trace :=
  ⟨stack, findUserFrame stack Option.none⟩

/-- `f"{x}"` on an optional string: Python prints `None` for the missing
case and the bare text otherwise. -/
def optStr (o : Option String) : String :=
  o.getD "None"

/-- `f"{x}"` on an optional line number. -/
def optNatStr (o : Option Nat) : String :=
  match o with
  | some n => toString n
  | Option.none => "None"

/-- `_format_frame` of `trace.py` (the triple-quoted f-string with its
4-space indentation). -/
def _format_frame (f : Frame) : String :=
  "Occurred here:\n    Line: " ++ optStr f.line ++ "\n    File: "
    ++ f.filename ++ ":" ++ optNatStr f.line_number

/-- A Python exception as the wrapping code observes it: its type's name
(`type(e).__name__`, which the dynamically created `Wrapper` subclass
copies), its message (`str(e)`), its `__cause__` (an opaque label here) and
whether it carries the `__pathway_wrapped__` attribute. -/
structure Exn where
  ty : String
  msg : String
  cause : Option String
  wrapped : Bool
  deriving DecidableEq, Repr

/-- `_reraise_with_user_frame(e, trace)` of `trace.py`, returning the
exception that the function (re)raises.  `stack` is the current call stack
used when no substitute trace is supplied.  An already-wrapped exception is
reraised as is; with no user frame the original is reraised; otherwise a
same-named subclass instance with the amended message is raised `from
e.__cause__`. -/
def _reraise_with_user_frame (e : Exn) (tr : Option Trace) (stack : List Frame) : Exn :=
  if e.wrapped then e
  else
    let t := tr.getD (Trace.from_traceback stack)
    match t.user_frame with
    | Option.none => e
    | some uf => ⟨e.ty, e.msg ++ "\n" ++ _format_frame uf, e.cause, true⟩

/-! ## Row transformer declaration (`row_transformer.py`) -/

/-- One attribute discovered by `ClassArg.__init_subclass__` via
`attrs_of_type`: its bound name, whether it is an output attribute
(`AbstractOutputAttribute`), its optional `output_name` parameter and its
dtype (declared or inferred from the return annotation; for a `Method`, the
callable dtype).  The list a `ClassArg` declaration yields is in `dir()`
order. -/
structure AttrSpec where
  aname : String
  is_output : Bool
  output_name : Option String
  dtype : DType
  deriving DecidableEq, Repr

/-- The kwargs dict `{attr.output_name: attr.dtype for attr in
cls._output_attributes.values()}`. -/
def outputPairs (attrs : List AttrSpec) : List (String × DType) :=
  (attrs.filter AttrSpec.is_output).foldl
    (fun d a => dictInsert d (a.output_name.getD a.aname) a.dtype) []

/-- `ClassArg.__init_subclass__(cls, input, output)` of
`row_transformer.py`, as far as it validates: derives
`cls.output_schema = schema_from_types(...)` from the declared output
attributes and, when an expected output schema was supplied (`output is not
Any`), raises `RuntimeError` unless `is_subschema(cls.output_schema,
output)`.  Returns the derived output schema. -/
def initSubclass (attrs : List AttrSpec) (expected : Option Schema) :
    Except PyErr Schema :=
  match schema_from_types "output_schema" (outputPairs attrs) with
  | Except.error e => Except.error e
  | Except.ok os =>
    match expected with
    | Option.none => Except.ok os
    | some exp =>
      if is_subschema os exp then Except.ok os else Except.error PyErr.runtimeError

/-! ## TableSlice (`table_slice.py`) -/

/-- A column reference bound to a table identity (an opaque number here)
and a column name. -/
structure ColumnRef where
  rtable : Nat
  rname : String
  deriving DecidableEq, Repr

/-- `TableSlice`: the name-to-column-reference mapping and the source
table.  The claims address slice arguments given as plain strings, for
which `_normalize` is the identity. -/
structure TableSlice where
  mapping : List (String × ColumnRef)
  table : Nat
  deriving DecidableEq, Repr

/-- The keys of the slice's mapping (`TableSlice.keys`). -/
def TableSlice.keys (s : TableSlice) : List String :=
  s.mapping.map Prod.fst

/-- Python `mapping.pop(k)` (the key is known to be present). -/
def popKey (d : List (String × ColumnRef)) (k : String) : List (String × ColumnRef) :=
  d.filter (fun p => p.1 ≠ k)

/-- The loop of `TableSlice.without` over the requested columns on the
copied mapping: existence check, then pop. -/
def withoutGo : List (String × ColumnRef) → List String →
    Except PyErr (List (String × ColumnRef))
  | m, [] => Except.ok m
  | m, c :: rest =>
    if c ∈ m.map Prod.fst then withoutGo (popKey m c) rest
    else Except.error PyErr.keyError

/-- `TableSlice.without(*cols)` (string arguments): a new slice over the
same table with the named columns removed; `KeyError` when a name is absent
from the current mapping. -/
def TableSlice.without (s : TableSlice) (cols : List String) : Except PyErr TableSlice :=
  match withoutGo s.mapping cols with
  | Except.ok m => Except.ok ⟨m, s.table⟩
  | Except.error e => Except.error e

/-- The first loop of `TableSlice.rename`: pop every old name from the
copied mapping, `KeyError` when one is absent. -/
def popAll : List (String × ColumnRef) → List String →
    Except PyErr (List (String × ColumnRef))
  | m, [] => Except.ok m
  | m, k :: rest =>
    if k ∈ m.map Prod.fst then popAll (popKey m k) rest
    else Except.error PyErr.keyError

/-- `TableSlice.rename(rename_dict)` (string keys and values): pops every
old name, then assigns `mapping[new] = self._mapping[old]` reading from the
original mapping.  The lookup in the second loop cannot miss (the first
loop verified presence); the `getD` default is never used. -/
def TableSlice.rename (s : TableSlice) (rd : List (String × String)) :
    Except PyErr TableSlice :=
  match popAll s.mapping (rd.map Prod.fst) with
  | Except.error e => Except.error e
  | Except.ok m =>
    Except.ok ⟨rd.foldl
      (fun acc p => dictInsert acc p.2 ((List.lookup p.1 s.mapping).getD ⟨0, ""⟩)) m,
      s.table⟩

/-- `TableSlice.with_prefix(prefix)`: rename every column `n` to
`prefix + n`. -/
def TableSlice.with_prefix (s : TableSlice) (p : String) : Except PyErr TableSlice :=
  TableSlice.rename s (s.keys.map (fun n => (n, p ++ n)))

/-- `TableSlice.with_suffix(suffix)`: rename every column `n` to
`n + suffix`. -/
def TableSlice.with_suffix (s : TableSlice) (suf : String) : Except PyErr TableSlice :=
  TableSlice.rename s (s.keys.map (fun n => (n, n ++ suf)))

/-- `TableSlice.__getattr__(name)`: a `ValueError` when the name collides
with an attribute of the `Table` type (except `id`); otherwise a column
lookup that raises `AttributeError` on a miss.  `table.py` is not part of
the given sources, so the attribute set of the `Table` type is the
parameter `tableAttrs`. -/
def tsGetattr (tableAttrs : List String) (s : TableSlice) (n : String) :
    Except PyErr ColumnRef :=
  if n ∈ tableAttrs ∧ n ≠ "id" then Except.error PyErr.valueError
  else
    match List.lookup n s.mapping with
    | some c => Except.ok c
    | Option.none => Except.error PyErr.attributeError

/-! ## Expression formatter (`expression_printer.py`)

`expression.py` is not part of the given sources; the expression node type
below is modelled from the spec ("immutable node variants representing
column references, literals, unary/binary operators, reducers,
user-function application, casts, tuple/sequence access, method calls"),
with exactly the variants and the variant metadata that
`ExpressionFormatter` visits.  Table identities are opaque numbers;
operator symbols, function names and type names are the strings the
formatter would resolve them to. -/

mutual
inductive PExpr where
  | columnVal (table : Nat) (cname : String)
  | unaryOp (symbol : String) (e : PExpr)
  | binaryOp (symbol : String) (l : PExpr) (r : PExpr)
  | const (v : Value)
  | reducer (rname : String) (args : PExprList)
  | reducerIx (rname : String) (args : PExprList)
  | applyFn (fname : String) (args : PExprList) (kwargs : PKwargs)
  | asyncApplyFn (fname : String) (args : PExprList) (kwargs : PKwargs)
  | numbaApplyFn (fname : String) (args : PExprList) (kwargs : PKwargs)
  | pointer (table : Nat) (args : PExprList) (opt : Bool)
  | ix (keysExpr : PExpr) (opt : Bool) (colTable : Nat) (colName : String)
  | call (colExpr : PExpr) (args : PExprList)
  | castExpr (typeName : String) (e : PExpr)
  | declareType (typeName : String) (e : PExpr)
  | coalesce (args : PExprList)
  | require (v : PExpr) (args : PExprList)
  | ifElse (i : PExpr) (t : PExpr) (e : PExpr)
  | methodCall (mname : String) (obj : PExpr) (args : PExprList)
  | makeTuple (args : PExprList)
  | seqGet (obj : PExpr) (idx : PExpr) (dflt : PExpr) (check : Bool)
  deriving DecidableEq

inductive PExprList where
  | nil
  | cons (e : PExpr) (rest : PExprList)
  deriving DecidableEq

inductive PKwargs where
  | nil
  | cons (k : String) (e : PExpr) (rest : PKwargs)
  deriving DecidableEq
end

/-- The mutable state of one `ExpressionFormatter` instance: the
`itertools.count(start=1)` counter and the `table_numbers` defaultdict in
insertion order. -/
structure FmtState where
  counter : Nat
  numbers : List (Nat × Nat)
  deriving DecidableEq, Repr

/-- A fresh `ExpressionFormatter()`. -/
def initState : FmtState :=
  ⟨1, []⟩

/-- `self.table_numbers[t]`: defaultdict access that assigns
`next(self.table_counter)` on a miss. -/
def getTableNumber (st : FmtState) (t : Nat) : Nat × FmtState :=
  match List.lookup t st.numbers with
  | some n => (n, st)
  | Option.none => (st.counter, ⟨st.counter + 1, st.numbers ++ [(t, st.counter)]⟩)

/-- `"<table{n}>"`. -/
def tableLabel (n : Nat) : String :=
  "<table" ++ toString n ++ ">"

/-- `.lstrip("_")` on a reducer name. -/
def lstripUnderscore (s : String) : String :=
  String.mk (s.toList.dropWhile (fun c => c = '_'))

/-- `", ".join`. -/
def joinArgs (parts : List String) : String :=
  String.intercalate ", " parts

mutual
/-- `ExpressionFormatter.eval_expression`: one visit, threading the
formatter state. -/
def evalExpr : PExpr → FmtState → String × FmtState
  | PExpr.columnVal t n, st =>
    let p := getTableNumber st t
    (tableLabel p.1 ++ "." ++ n, p.2)
  | PExpr.unaryOp sym e, st =>
    let p := evalExpr e st
    ("(" ++ sym ++ p.1 ++ ")", p.2)
  | PExpr.binaryOp sym l r, st =>
    let pl := evalExpr l st
    let pr := evalExpr r pl.2
    ("(" ++ pl.1 ++ " " ++ sym ++ " " ++ pr.1 ++ ")", pr.2)
  | PExpr.const v, st => (pyRepr v, st)
  | PExpr.reducer nm args, st =>
    let pa := evalList args st
    ("pathway.reducers." ++ lstripUnderscore nm ++ "(" ++ joinArgs pa.1 ++ ")", pa.2)
  | PExpr.reducerIx nm args, st =>
    let pa := evalList args st
    ("pathway.reducers." ++ lstripUnderscore nm ++ "(" ++ joinArgs pa.1 ++ ")", pa.2)
  | PExpr.applyFn f args kwargs, st =>
    let pa := evalList args st
    let pk := evalKwargs kwargs pa.2
    ("pathway.apply(" ++ f ++ ", " ++ joinArgs (pa.1 ++ pk.1) ++ ")", pk.2)
  | PExpr.asyncApplyFn f args kwargs, st =>
    let pa := evalList args st
    let pk := evalKwargs kwargs pa.2
    ("pathway.apply_async(" ++ f ++ ", " ++ joinArgs (pa.1 ++ pk.1) ++ ")", pk.2)
  | PExpr.numbaApplyFn f args kwargs, st =>
    let pa := evalList args st
    let pk := evalKwargs kwargs pa.2
    ("pathway.numba_apply(" ++ f ++ ", " ++ joinArgs (pa.1 ++ pk.1) ++ ")", pk.2)
  | PExpr.pointer t args opt, st =>
    -- `eval_pointer` synthesizes `kwargs = {"optional":
    -- ColumnConstExpression(True)}` when optional; evaluating that constant
    -- yields `repr(True)` and leaves the state alone, so the kwarg strings
    -- are computed directly here.
    let pa := evalList args st
    let kw := if opt then ["optional=" ++ pyRepr (Value.bool true)] else []
    let pt := getTableNumber pa.2 t
    (tableLabel pt.1 ++ ".pointer_from(" ++ joinArgs (pa.1 ++ kw) ++ ")", pt.2)
  | PExpr.ix keysExpr opt colTable colName, st =>
    let pk := evalExpr keysExpr st
    let pt := getTableNumber pk.2 colTable
    (tableLabel pt.1 ++ ".ix(" ++ joinArgs (pk.1 :: (if opt then ["optional=True"] else [])) ++ ")." ++ colName, pt.2)
  | PExpr.call colExpr args, st =>
    let pa := evalList args st
    let pc := evalExpr colExpr pa.2
    (pc.1 ++ "(" ++ joinArgs pa.1 ++ ")", pc.2)
  | PExpr.castExpr tn e, st =>
    let p := evalExpr e st
    ("pathway.cast(" ++ tn ++ ", " ++ p.1 ++ ")", p.2)
  | PExpr.declareType tn e, st =>
    let p := evalExpr e st
    ("pathway.declare_type(" ++ tn ++ ", " ++ p.1 ++ ")", p.2)
  | PExpr.coalesce args, st =>
    let pa := evalList args st
    ("pathway.coalesce(" ++ joinArgs pa.1 ++ ")", pa.2)
  | PExpr.require v args, st =>
    let pv := evalExpr v st
    let pa := evalList args pv.2
    ("pathway.require(" ++ joinArgs (pv.1 :: pa.1) ++ ")", pa.2)
  | PExpr.ifElse i t e, st =>
    let pi_ := evalExpr i st
    let pt := evalExpr t pi_.2
    let pe := evalExpr e pt.2
    ("pathway.if_else(" ++ joinArgs [pi_.1, pt.1, pe.1] ++ ")", pe.2)
  | PExpr.methodCall nm obj args, st =>
    let po := evalExpr obj st
    let pa := evalList args po.2
    ("(" ++ po.1 ++ ")." ++ nm ++ "(" ++ joinArgs pa.1 ++ ")", pa.2)
  | PExpr.makeTuple args, st =>
    let pa := evalList args st
    ("pathway.make_tuple(" ++ joinArgs pa.1 ++ ")", pa.2)
  | PExpr.seqGet obj idx dflt check, st =>
    let po := evalExpr obj st
    let pidx := evalExpr idx po.2
    if check then
      let pd := evalExpr dflt pidx.2
      ("(" ++ po.1 ++ ").get(" ++ joinArgs [pidx.1, pd.1] ++ ")", pd.2)
    else ("(" ++ po.1 ++ ")[" ++ joinArgs [pidx.1] ++ "]", pidx.2)

/-- The positional-argument half of `_eval_args_kwargs`. -/
def evalList : PExprList → FmtState → List String × FmtState
  | PExprList.nil, st => ([], st)
  | PExprList.cons e rest, st =>
    let p := evalExpr e st
    let pr := evalList rest p.2
    (p.1 :: pr.1, pr.2)

/-- The keyword-argument half of `_eval_args_kwargs`
(`key + "=" + self.eval_expression(value)`). -/
def evalKwargs : PKwargs → FmtState → List String × FmtState
  | PKwargs.nil, st => ([], st)
  | PKwargs.cons k e rest, st =>
    let p := evalExpr e st
    let pr := evalKwargs rest p.2
    ((k ++ "=" ++ p.1) :: pr.1, pr.2)
end

mutual
/-- The table identities an expression makes the formatter look up, as a
list with repetitions, in the exact order `evalExpr` performs the
lookups. -/
def tablesOf : PExpr → List Nat
  | PExpr.columnVal t _ => [t]
  | PExpr.unaryOp _ e => tablesOf e
  | PExpr.binaryOp _ l r => tablesOf l ++ tablesOf r
  | PExpr.const _ => []
  | PExpr.reducer _ args => tablesOfList args
  | PExpr.reducerIx _ args => tablesOfList args
  | PExpr.applyFn _ args kwargs => tablesOfList args ++ tablesOfKwargs kwargs
  | PExpr.asyncApplyFn _ args kwargs => tablesOfList args ++ tablesOfKwargs kwargs
  | PExpr.numbaApplyFn _ args kwargs => tablesOfList args ++ tablesOfKwargs kwargs
  | PExpr.pointer t args _ => tablesOfList args ++ [t]
  | PExpr.ix keysExpr _ colTable _ => tablesOf keysExpr ++ [colTable]
  | PExpr.call colExpr args => tablesOfList args ++ tablesOf colExpr
  | PExpr.castExpr _ e => tablesOf e
  | PExpr.declareType _ e => tablesOf e
  | PExpr.coalesce args => tablesOfList args
  | PExpr.require v args => tablesOf v ++ tablesOfList args
  | PExpr.ifElse i t e => tablesOf i ++ tablesOf t ++ tablesOf e
  | PExpr.methodCall _ obj args => tablesOf obj ++ tablesOfList args
  | PExpr.makeTuple args => tablesOfList args
  | PExpr.seqGet obj idx dflt check =>
    tablesOf obj ++ tablesOf idx ++ (if check then tablesOf dflt else [])

def tablesOfList : PExprList → List Nat
  | PExprList.nil => []
  | PExprList.cons e rest => tablesOf e ++ tablesOfList rest

def tablesOfKwargs : PKwargs → List Nat
  | PKwargs.nil => []
  | PKwargs.cons _ e rest => tablesOf e ++ tablesOfKwargs rest
end

/-- One defaultdict miss-or-hit, state only. -/
def addTable (st : FmtState) (t : Nat) : FmtState :=
  (getTableNumber st t).2

/-- The state after a sequence of table lookups. -/
def addAll (st : FmtState) (l : List Nat) : FmtState :=
  l.foldl addTable st

mutual
/-- Rendering against a fixed table-number map: what `evalExpr` prints,
given that every table it meets already has its final number in `m`. -/
def renderExpr (m : List (Nat × Nat)) : PExpr → String
  | PExpr.columnVal t n => tableLabel ((List.lookup t m).getD 0) ++ "." ++ n
  | PExpr.unaryOp sym e => "(" ++ sym ++ renderExpr m e ++ ")"
  | PExpr.binaryOp sym l r =>
    "(" ++ renderExpr m l ++ " " ++ sym ++ " " ++ renderExpr m r ++ ")"
  | PExpr.const v => pyRepr v
  | PExpr.reducer nm args =>
    "pathway.reducers." ++ lstripUnderscore nm ++ "(" ++ joinArgs (renderList m args) ++ ")"
  | PExpr.reducerIx nm args =>
    "pathway.reducers." ++ lstripUnderscore nm ++ "(" ++ joinArgs (renderList m args) ++ ")"
  | PExpr.applyFn f args kwargs =>
    "pathway.apply(" ++ f ++ ", " ++ joinArgs (renderList m args ++ renderKwargs m kwargs) ++ ")"
  | PExpr.asyncApplyFn f args kwargs =>
    "pathway.apply_async(" ++ f ++ ", " ++ joinArgs (renderList m args ++ renderKwargs m kwargs) ++ ")"
  | PExpr.numbaApplyFn f args kwargs =>
    "pathway.numba_apply(" ++ f ++ ", " ++ joinArgs (renderList m args ++ renderKwargs m kwargs) ++ ")"
  | PExpr.pointer t args opt =>
    tableLabel ((List.lookup t m).getD 0) ++ ".pointer_from("
      ++ joinArgs (renderList m args
        ++ (if opt then ["optional=" ++ pyRepr (Value.bool true)] else [])) ++ ")"
  | PExpr.ix keysExpr opt colTable colName =>
    tableLabel ((List.lookup colTable m).getD 0) ++ ".ix("
      ++ joinArgs (renderExpr m keysExpr :: (if opt then ["optional=True"] else [])) ++ ")." ++ colName
  | PExpr.call colExpr args =>
    renderExpr m colExpr ++ "(" ++ joinArgs (renderList m args) ++ ")"
  | PExpr.castExpr tn e => "pathway.cast(" ++ tn ++ ", " ++ renderExpr m e ++ ")"
  | PExpr.declareType tn e => "pathway.declare_type(" ++ tn ++ ", " ++ renderExpr m e ++ ")"
  | PExpr.coalesce args => "pathway.coalesce(" ++ joinArgs (renderList m args) ++ ")"
  | PExpr.require v args =>
    "pathway.require(" ++ joinArgs (renderExpr m v :: renderList m args) ++ ")"
  | PExpr.ifElse i t e =>
    "pathway.if_else(" ++ joinArgs [renderExpr m i, renderExpr m t, renderExpr m e] ++ ")"
  | PExpr.methodCall nm obj args =>
    "(" ++ renderExpr m obj ++ ")." ++ nm ++ "(" ++ joinArgs (renderList m args) ++ ")"
  | PExpr.makeTuple args => "pathway.make_tuple(" ++ joinArgs (renderList m args) ++ ")"
  | PExpr.seqGet obj idx dflt check =>
    if check then
      "(" ++ renderExpr m obj ++ ").get(" ++ joinArgs [renderExpr m idx, renderExpr m dflt] ++ ")"
    else "(" ++ renderExpr m obj ++ ")[" ++ joinArgs [renderExpr m idx] ++ "]"

def renderList (m : List (Nat × Nat)) : PExprList → List String
  | PExprList.nil => []
  | PExprList.cons e rest => renderExpr m e :: renderList m rest

def renderKwargs (m : List (Nat × Nat)) : PKwargs → List String
  | PKwargs.nil => []
  | PKwargs.cons k e rest => (k ++ "=" ++ renderExpr m e) :: renderKwargs m rest
end

/-! ## Claim C1 -/

/-- C1: for every schema in which no column declares `primary_key=True`,
`primary_key_columns()` returns `None`; the function never returns an empty
list (so an empty list could only arise for a schema explicitly configured
with zero key columns, which this construction path cannot express), and
the `None` and empty-list outcomes are never conflated. -/
theorem claim_C1 (s : Schema) :
    (primary_key_columns s = Option.none ↔ ∀ p ∈ s.columns, p.2.primary_key = false)
    ∧ primary_key_columns s ≠ some [] := by
  by_cases h : (s.columns.filter (fun p => p.2.primary_key)) = []
  · have hres : primary_key_columns s = Option.none := by
      simp [primary_key_columns, h]
    rw [hres]
    refine ⟨⟨fun _ p hp => ?_, fun _ => rfl⟩, by simp⟩
    have := List.filter_eq_nil_iff.mp h p hp
    simpa using this
  · have hne : ((s.columns.filter (fun p => p.2.primary_key)).map Prod.fst) ≠ [] := by
      simpa [List.map_eq_nil_iff] using h
    have hres : primary_key_columns s
        = some ((s.columns.filter (fun p => p.2.primary_key)).map Prod.fst) := by
      simp [primary_key_columns, hne]
    rw [hres]
    refine ⟨⟨fun hc => absurd hc (by simp), fun hall => ?_⟩,
      fun hc => hne (Option.some.inj hc)⟩
    exact absurd (List.filter_eq_nil_iff.mpr (fun p hp => by simp [hall p hp])) h

/-- Witness for C1 at a concrete schema: a one-column schema without
primary keys yields `None`. -/
theorem claim_C1_witness :
    primary_key_columns ⟨"W", [("x", DType.int)], [],
      [("x", ⟨false, Option.none, some DType.int, Option.none⟩)]⟩ = Option.none :=
  (claim_C1 _).1.mpr (by decide)

/-! ## Claim C8 -/

/-- C8: `column_definition()` without a default value yields
`has_default_value() = False`; with any explicitly supplied value
(including the Python `None`, `False`, `0` and `""`) it yields `True`; the
no-default state (the private sentinel, `Option.none` here) is distinct
from a default of `None`, keeping the three-way distinction. -/
theorem claim_C8 :
    (∀ pk dt nm, has_default_value (column_definition pk Option.none dt nm) = false)
    ∧ (∀ pk dt nm v, has_default_value (column_definition pk (some v) dt nm) = true)
    ∧ (has_default_value (column_definition false (some Value.none) Option.none Option.none) = true
      ∧ has_default_value (column_definition false (some (Value.bool false)) Option.none Option.none) = true
      ∧ has_default_value (column_definition false (some (Value.int 0)) Option.none Option.none) = true
      ∧ has_default_value (column_definition false (some (Value.str "")) Option.none Option.none) = true)
    ∧ (∀ pk dt nm,
        (column_definition pk Option.none dt nm).default_value
          ≠ (column_definition pk (some Value.none) dt nm).default_value) := by
  refine ⟨fun pk dt nm => rfl, fun pk dt nm v => rfl, ⟨rfl, rfl, rfl, rfl⟩, ?_⟩
  intro pk dt nm
  simp [column_definition]

/-! ## Claim C10 -/

/-- C10: `TableSlice.__getattr__` raises the method-collision `ValueError`
for every name that is an attribute of the `Table` type — even when a
column of that name exists — except the exempt name `id`, which is resolved
as a column; a name that is neither a `Table` attribute nor a column of the
mapping raises `AttributeError`. -/
theorem claim_C10 (tableAttrs : List String) (s : TableSlice) (n : String) :
    (n ∈ tableAttrs → n ≠ "id" →
      tsGetattr tableAttrs s n = Except.error PyErr.valueError)
    ∧ (∀ c, List.lookup "id" s.mapping = some c →
        tsGetattr tableAttrs s "id" = Except.ok c)
    ∧ (n ∉ tableAttrs → List.lookup n s.mapping = Option.none →
        tsGetattr tableAttrs s n = Except.error PyErr.attributeError) := by
  refine ⟨?_, ?_, ?_⟩
  · intro h1 h2
    simp [tsGetattr, h1, h2]
  · intro c hc
    simp [tsGetattr, hc]
  · intro h1 h2
    simp [tsGetattr, h1, h2]

/-! ## Claim C4 -/

/-- C4: `_reraise_with_user_frame` passes an already-wrapped exception
through unchanged (idempotent wrapping); otherwise, when a user frame is
available, it reraises a same-named wrapped exception whose message is the
original message extended with the `Occurred here` location, with the cause
preserved — the error's type name is never changed. -/
theorem claim_C4 (e : Exn) (tr : Option Trace) (stack : List Frame) :
    (e.wrapped = true → _reraise_with_user_frame e tr stack = e)
    ∧ (∀ uf, e.wrapped = false →
        (tr.getD (Trace.from_traceback stack)).user_frame = some uf →
        (_reraise_with_user_frame e tr stack).ty = e.ty
        ∧ (_reraise_with_user_frame e tr stack).msg = e.msg ++ "\n" ++ _format_frame uf
        ∧ (_reraise_with_user_frame e tr stack).cause = e.cause
        ∧ (_reraise_with_user_frame e tr stack).wrapped = true) := by
  constructor
  · intro hw
    simp [_reraise_with_user_frame, hw]
  · intro uf hw huf
    simp [_reraise_with_user_frame, hw, huf]

/-! ## Claim C5 -/

/-- The scanning loop of `Trace.from_traceback` finds the last external
frame of the prefix before the first marker frame (falling back to the
accumulator). -/
theorem findUserFrame_eq (l : List Frame) (acc : Option Frame) :
    findUserFrame l acc =
      (((l.takeWhile (fun f => !Frame.is_marker f)).filter Frame.is_external).getLast?).orElse
        (fun _ => acc) := by
  induction l generalizing acc with
  | nil => simp [findUserFrame]
  | cons f rest ih =>
    by_cases hm : Frame.is_marker f
    · simp [findUserFrame, hm, List.takeWhile_cons]
    · by_cases he : Frame.is_external f
      · rw [show findUserFrame (f :: rest) acc = findUserFrame rest (some f) by
          simp [findUserFrame, hm, he]]
        rw [ih]
        simp only [List.takeWhile_cons, hm, Bool.not_false, if_true, List.filter_cons, he]
        cases hx : (rest.takeWhile (fun f => !Frame.is_marker f)).filter Frame.is_external with
        | nil => simp
        | cons a as =>
          rw [List.getLast?_cons_cons]
          cases ho : (a :: as).getLast? with
          | none => exact absurd (List.getLast?_eq_none_iff.mp ho) (by simp)
          | some g => simp [Option.orElse]
      · rw [show findUserFrame (f :: rest) acc = findUserFrame rest acc by
          simp [findUserFrame, hm, he]]
        rw [ih]
        simp [List.takeWhile_cons, hm, List.filter_cons, he]

/-- C5: the user frame attributed by `Trace.from_traceback` is the last
external frame before the first trace-marker frame of the scanned frame
list; when no such external frame exists, `_reraise_with_user_frame`
reraises the original exception unchanged. -/
theorem claim_C5 (frames : List Frame) (e : Exn) :
    (Trace.from_traceback frames).user_frame
      = ((frames.takeWhile (fun f => !Frame.is_marker f)).filter Frame.is_external).getLast?
    ∧ ((Trace.from_traceback frames).user_frame = Option.none →
        _reraise_with_user_frame e Option.none frames = e) := by
  have h1 : (Trace.from_traceback frames).user_frame
      = ((frames.takeWhile (fun f => !Frame.is_marker f)).filter Frame.is_external).getLast? := by
    show findUserFrame frames Option.none = _
    rw [findUserFrame_eq]
    cases ((frames.takeWhile (fun f => !Frame.is_marker f)).filter Frame.is_external).getLast? with
    | none => rfl
    | some g => rfl
  refine ⟨h1, fun hnone => ?_⟩
  unfold _reraise_with_user_frame
  by_cases hw : e.wrapped
  · simp [hw]
  · simp only [hw, if_neg, Bool.false_eq_true, not_false_eq_true, if_false]
    simp [Option.getD, hnone]

/-! ## Claim C7 -/

/-- The `without` loop succeeds when every requested column is present and
the requested columns are pairwise distinct. -/
theorem withoutGo_ok (cols : List String) (m : List (String × ColumnRef))
    (hmem : ∀ x ∈ cols, x ∈ m.map Prod.fst) (hnd : cols.Nodup) :
    ∃ m2, withoutGo m cols = Except.ok m2 := by
  induction cols generalizing m with
  | nil => exact ⟨m, rfl⟩
  | cons c rest ih =>
    have hc : c ∈ m.map Prod.fst := hmem c (by simp)
    have hrest : ∀ x ∈ rest, x ∈ (popKey m c).map Prod.fst := by
      intro x hx
      have hxm := hmem x (by simp [hx])
      have hxc : x ≠ c := by
        intro hxeq
        exact (List.nodup_cons.mp hnd).1 (hxeq ▸ hx)
      simp only [popKey, List.mem_map, List.mem_filter] at *
      obtain ⟨p, hp, hfst⟩ := hxm
      exact ⟨p, ⟨hp, by simp [hfst, hxc]⟩, hfst⟩
    obtain ⟨m2, hm2⟩ := ih (popKey m c) hrest (List.nodup_cons.mp hnd).2
    exact ⟨m2, by simp [withoutGo, hc, hm2]⟩

/-- The first `rename` loop succeeds under the same conditions. -/
theorem popAll_ok (olds : List String) (m : List (String × ColumnRef))
    (hmem : ∀ x ∈ olds, x ∈ m.map Prod.fst) (hnd : olds.Nodup) :
    ∃ m2, popAll m olds = Except.ok m2 := by
  induction olds generalizing m with
  | nil => exact ⟨m, rfl⟩
  | cons c rest ih =>
    have hc : c ∈ m.map Prod.fst := hmem c (by simp)
    have hrest : ∀ x ∈ rest, x ∈ (popKey m c).map Prod.fst := by
      intro x hx
      have hxm := hmem x (by simp [hx])
      have hxc : x ≠ c := by
        intro hxeq
        exact (List.nodup_cons.mp hnd).1 (hxeq ▸ hx)
      simp only [popKey, List.mem_map, List.mem_filter] at *
      obtain ⟨p, hp, hfst⟩ := hxm
      exact ⟨p, ⟨hp, by simp [hfst, hxc]⟩, hfst⟩
    obtain ⟨m2, hm2⟩ := ih (popKey m c) hrest (List.nodup_cons.mp hnd).2
    exact ⟨m2, by simp [popAll, hc, hm2]⟩

/-- C7: on a `TableSlice`, `without` and `rename` fail with a key error for
a column name absent from the current mapping; for present names,
`without`, `rename`, `with_prefix` and `with_suffix` each return a new
`TableSlice` over the same table (the source copies the mapping, so the
original slice is untouched — in this pure embedding the input value is
unchanged by construction). -/
theorem claim_C7 (s : TableSlice) (c nw : String) (cols : List String)
    (rd : List (String × String)) (p suf : String)
    (hnd : (s.mapping.map Prod.fst).Nodup) :
    (c ∉ TableSlice.keys s →
      TableSlice.without s [c] = Except.error PyErr.keyError
      ∧ TableSlice.rename s [(c, nw)] = Except.error PyErr.keyError)
    ∧ (cols.Nodup → (∀ x ∈ cols, x ∈ TableSlice.keys s) →
        ∃ t, TableSlice.without s cols = Except.ok t ∧ t.table = s.table)
    ∧ ((rd.map Prod.fst).Nodup → (∀ x ∈ rd.map Prod.fst, x ∈ TableSlice.keys s) →
        ∃ t, TableSlice.rename s rd = Except.ok t ∧ t.table = s.table)
    ∧ (∃ t, TableSlice.with_prefix s p = Except.ok t ∧ t.table = s.table)
    ∧ (∃ t, TableSlice.with_suffix s suf = Except.ok t ∧ t.table = s.table) := by
  have mapFstPair : ∀ (l : List String) (g : String → String),
      List.map Prod.fst (l.map (fun n => (n, g n))) = l := by
    intro l g
    induction l with
    | nil => rfl
    | cons a as ih => simp [ih]
  have renameOk : ∀ rd2 : List (String × String), (rd2.map Prod.fst).Nodup →
      (∀ x ∈ rd2.map Prod.fst, x ∈ TableSlice.keys s) →
      ∃ t, TableSlice.rename s rd2 = Except.ok t ∧ t.table = s.table := by
    intro rd2 hnd2 hmem2
    obtain ⟨m2, hm2⟩ := popAll_ok (rd2.map Prod.fst) s.mapping hmem2 hnd2
    exact ⟨⟨rd2.foldl
      (fun acc p => dictInsert acc p.2 ((List.lookup p.1 s.mapping).getD ⟨0, ""⟩)) m2,
      s.table⟩, by simp [TableSlice.rename, hm2], rfl⟩
  refine ⟨?_, ?_, renameOk rd, ?_, ?_⟩
  · intro habs
    have habs2 : c ∉ s.mapping.map Prod.fst := habs
    constructor
    · simp [TableSlice.without, withoutGo, habs2]
    · simp [TableSlice.rename, popAll, habs2]
  · intro hndc hmemc
    obtain ⟨m2, hm2⟩ := withoutGo_ok cols s.mapping hmemc hndc
    exact ⟨⟨m2, s.table⟩, by simp [TableSlice.without, hm2], rfl⟩
  · apply renameOk
    · rw [mapFstPair]
      exact hnd
    · intro x hx
      rw [mapFstPair] at hx
      exact hx
  · apply renameOk
    · rw [mapFstPair]
      exact hnd
    · intro x hx
      rw [mapFstPair] at hx
      exact hx

/-- Witness for C7 at a concrete slice: removing the only column succeeds;
removing an absent column raises a key error. -/
theorem claim_C7_witness :
    TableSlice.without ⟨[("a", ⟨1, "a"⟩)], 1⟩ ["b"] = Except.error PyErr.keyError
    ∧ (∃ t, TableSlice.without ⟨[("a", ⟨1, "a"⟩)], 1⟩ ["a"] = Except.ok t
        ∧ t.table = 1) := by
  have h := claim_C7 ⟨[("a", ⟨1, "a"⟩)], 1⟩ "b" "c" ["a"] [] "p" "s" (by decide)
  exact ⟨(h.1 (by decide)).1, h.2.1 (by decide) (by decide)⟩

/-! ## Claim C3 -/

/-- Assignability is reflexive. -/
theorem dtype_issubclass_refl (d : DType) : dtype_issubclass d d = true := by
  induction d with
  | option t ih => simpa [dtype_issubclass] using ih
  | int => rfl
  | float => rfl
  | bool => rfl
  | str => rfl
  | noneType => rfl
  | anyType => rfl

/-- The Boolean key-set comparison is set equality of the key lists. -/
theorem sameKeySet_iff (l r : List String) :
    sameKeySet l r = true ↔ ∀ k, k ∈ l ↔ k ∈ r := by
  simp only [sameKeySet, Bool.and_eq_true, List.all_eq_true]
  constructor
  · intro ⟨h1, h2⟩ k
    exact ⟨fun hk => List.elem_iff.mp (h1 k hk), fun hk => List.elem_iff.mp (h2 k hk)⟩
  · intro h
    exact ⟨fun k hk => List.elem_iff.mpr ((h k).mp hk),
      fun k hk => List.elem_iff.mpr ((h k).mpr hk)⟩

/-- A one-column schema value with the given dtype (used as concrete
input). -/
def oneColSchema (nm : String) (d : DType) : Schema :=
  ⟨nm, [("x", d)], [], [("x", ⟨false, Option.none, some d, Option.none⟩)]⟩

/-- C3: `is_subschema(A, B)` is true iff `A` and `B` declare the same set
of column names and every column's dtype in `A` is assignable
(`dtype_issubclass`) to its dtype in `B`; it is reflexive, and it is not
symmetric in general: with optional widening (`int` against
`Optional[int]`) it holds one way only. -/
theorem claim_C3 :
    (∀ A B : Schema, is_subschema A B = true ↔
      ((∀ k, k ∈ column_names A ↔ k ∈ column_names B)
        ∧ ∀ k ∈ column_names A, dtype_issubclass (schemaGet A k) (schemaGet B k) = true))
    ∧ (∀ A : Schema, is_subschema A A = true)
    ∧ is_subschema (oneColSchema "I" DType.int) (oneColSchema "O" (DType.option DType.int)) = true
    ∧ is_subschema (oneColSchema "O" (DType.option DType.int)) (oneColSchema "I" DType.int) = false := by
  have hiff : ∀ A B : Schema, is_subschema A B = true ↔
      ((∀ k, k ∈ column_names A ↔ k ∈ column_names B)
        ∧ ∀ k ∈ column_names A, dtype_issubclass (schemaGet A k) (schemaGet B k) = true) := by
    intro A B
    unfold is_subschema
    by_cases hs : sameKeySet (column_names A) (column_names B) = true
    · rw [if_pos hs]
      rw [List.all_eq_true]
      constructor
      · intro h
        exact ⟨(sameKeySet_iff _ _).mp hs, h⟩
      · intro ⟨_, h⟩
        exact h
    · rw [if_neg hs]
      constructor
      · intro h
        exact absurd h (by simp)
      · intro ⟨hk, _⟩
        exact absurd ((sameKeySet_iff _ _).mpr hk) hs
  refine ⟨hiff, fun A => ?_, by decide, by decide⟩
  apply (hiff A A).mpr
  exact ⟨fun k => Iff.rfl, fun k _ => dtype_issubclass_refl _⟩

/-! ## Claim C6 -/

/-- On a pure annotation dict (no fields), `_create_column_definitions`
never raises: every column gets a fresh definition whose dtype is the
annotation's. -/
theorem processColumns_no_fields (ann : List (String × DType)) (names : List String)
    (cols : List (String × ColumnDefinition)) :
    ∃ cols2, processColumns ann names [] cols = Except.ok ([], cols2) := by
  induction names generalizing cols with
  | nil => exact ⟨cols, rfl⟩
  | cons n rest ih =>
    have hchk : stepCheck ann [] n = true := by
      simp [stepCheck, stepCol, stepDtype, defaultColumnDefinition, List.lookup]
    have := ih (dictInsert cols (stepName [] n) (stepCol ann [] n))
    obtain ⟨cols2, h2⟩ := this
    refine ⟨cols2, ?_⟩
    simp only [processColumns, hchk, if_pos]
    simpa [updateField] using h2

/-- `schema_from_types` always succeeds. -/
theorem schema_from_types_ok (nm : String) (kwargs : List (String × DType)) :
    ∃ s, schema_from_types nm kwargs = Except.ok s := by
  obtain ⟨cols2, h⟩ := processColumns_no_fields kwargs (schemaKeys kwargs []) []
  exact ⟨⟨nm, kwargs, [], cols2⟩, by simp [schema_from_types, mkSchema, h]⟩

/-- C6: declaring a `ClassArg` subclass with an explicit expected output
schema fails (with `RuntimeError`) iff the output schema derived from the
declared output attributes is not a subschema of the expected one; with no
expected schema supplied, declaration never fails on schema grounds. -/
theorem claim_C6 (attrs : List AttrSpec) (exp : Schema) :
    (∃ os, schema_from_types "output_schema" (outputPairs attrs) = Except.ok os
      ∧ (initSubclass attrs (some exp) = Except.error PyErr.runtimeError
          ↔ is_subschema os exp = false)
      ∧ (is_subschema os exp = true → initSubclass attrs (some exp) = Except.ok os))
    ∧ (∃ os, initSubclass attrs Option.none = Except.ok os) := by
  obtain ⟨os, hos⟩ := schema_from_types_ok "output_schema" (outputPairs attrs)
  constructor
  · refine ⟨os, hos, ?_, ?_⟩
    · by_cases hsub : is_subschema os exp = true
      · simp [initSubclass, hos, hsub]
      · have hsub2 : is_subschema os exp = false := by
          simpa using hsub
        simp [initSubclass, hos, hsub2]
    · intro hsub
      simp [initSubclass, hos, hsub]
  · exact ⟨os, by simp [initSubclass, hos]⟩

/-! ## Claim C9: formatter state lemmas -/

theorem lookup_append_some {α β : Type} [DecidableEq α] (l l2 : List (α × β))
    (t : α) (n : β) (h : List.lookup t l = some n) :
    List.lookup t (l ++ l2) = some n := by
  induction l with
  | nil => simp [List.lookup] at h
  | cons p rest ih =>
    simp only [List.lookup, List.cons_append] at *
    by_cases ht : t == p.1
    · simpa [ht] using h
    · simp only [ht] at *
      simp at ht
      simpa [List.lookup, ht] using ih h

theorem lookup_append_none {α β : Type} [DecidableEq α] (l l2 : List (α × β))
    (t : α) (h : List.lookup t l = Option.none) :
    List.lookup t (l ++ l2) = List.lookup t l2 := by
  induction l with
  | nil => simp
  | cons p rest ih =>
    simp only [List.lookup, List.cons_append] at *
    by_cases ht : t == p.1
    · simp [ht] at h
    · simp only [ht] at *
      simp at ht
      simpa [List.lookup, ht] using ih h

/-- Existing table numbers survive one defaultdict access. -/
theorem addTable_preserves (st : FmtState) (t u : Nat) (n : Nat)
    (h : List.lookup u st.numbers = some n) :
    List.lookup u (addTable st t).numbers = some n := by
  unfold addTable getTableNumber
  cases hl : List.lookup t st.numbers with
  | some k => exact h
  | none => exact lookup_append_some _ _ _ _ h

/-- Existing table numbers survive any sequence of accesses. -/
theorem addAll_preserves (l : List Nat) (st : FmtState) (u : Nat) (n : Nat)
    (h : List.lookup u st.numbers = some n) :
    List.lookup u (addAll st l).numbers = some n := by
  induction l generalizing st with
  | nil => exact h
  | cons t rest ih => exact ih (addTable st t) (addTable_preserves st t u n h)

/-- The lookup after an access to `t` is assigned. -/
theorem addTable_self (st : FmtState) (t : Nat) :
    (List.lookup t (addTable st t).numbers).isSome := by
  unfold addTable getTableNumber
  cases hl : List.lookup t st.numbers with
  | some k => simp [hl]
  | none => simp [lookup_append_none _ _ _ hl, List.lookup]

/-- Every table of the access sequence is assigned afterwards. -/
theorem addAll_mem (l : List Nat) (st : FmtState) (t : Nat) (ht : t ∈ l) :
    (List.lookup t (addAll st l).numbers).isSome := by
  induction l generalizing st with
  | nil => cases ht
  | cons a rest ih =>
    rcases List.mem_cons.mp ht with h | h
    · subst h
      show (List.lookup t (addAll (addTable st t) rest).numbers).isSome
      obtain ⟨n, hn⟩ := Option.isSome_iff_exists.mp (addTable_self st t)
      simp [addAll_preserves rest (addTable st t) t n hn]
    · exact ih (addTable st a) h

/-- Accesses to already-assigned tables do not change the state. -/
theorem addAll_skip (l : List Nat) (st : FmtState)
    (h : ∀ t ∈ l, (List.lookup t st.numbers).isSome) : addAll st l = st := by
  induction l with
  | nil => rfl
  | cons a rest ih =>
    have ha : addTable st a = st := by
      obtain ⟨n, hn⟩ := Option.isSome_iff_exists.mp (h a (by simp))
      simp [addTable, getTableNumber, hn]
    show addAll (addTable st a) rest = st
    rw [ha]
    exact ih (fun t ht => h t (by simp [ht]))

/-- Replaying the same access sequence is the identity. -/
theorem addAll_idem (l : List Nat) (st : FmtState) :
    addAll (addAll st l) l = addAll st l :=
  addAll_skip l _ (fun t ht => addAll_mem l st t ht)

theorem addAll_append (st : FmtState) (l1 l2 : List Nat) :
    addAll st (l1 ++ l2) = addAll (addAll st l1) l2 := by
  simp [addAll, List.foldl_append]

/-- `m1`'s assignments are contained in `m2`. -/
def MapLe (m1 m2 : List (Nat × Nat)) : Prop :=
  ∀ t n, List.lookup t m1 = some n → List.lookup t m2 = some n

theorem mapLe_refl (m : List (Nat × Nat)) : MapLe m m :=
  fun _ _ h => h

theorem addAll_le (l : List Nat) (st : FmtState) :
    MapLe st.numbers (addAll st l).numbers :=
  fun u n h => addAll_preserves l st u n h

theorem mapLe_trans {m1 m2 m3 : List (Nat × Nat)} (h12 : MapLe m1 m2)
    (h23 : MapLe m2 m3) : MapLe m1 m3 :=
  fun t n h => h23 t n (h12 t n h)

/-- The number under which an access to `t` prints it is its assignment in
the state after the access. -/
theorem addTable_lookup (st : FmtState) (t : Nat) :
    List.lookup t (addTable st t).numbers = some (getTableNumber st t).1 := by
  unfold addTable getTableNumber
  cases hl : List.lookup t st.numbers with
  | some k => simp [hl]
  | none => simp [lookup_append_none _ _ _ hl, List.lookup]

mutual
/-- One formatter visit equals the pure rendering against any map `M` that
extends the final assignments, and the final state is exactly the access
sequence `tablesOf` applied to the input state. -/
theorem evalExpr_spec : ∀ (e : PExpr) (st : FmtState) (M : List (Nat × Nat)),
    MapLe (addAll st (tablesOf e)).numbers M →
    evalExpr e st = (renderExpr M e, addAll st (tablesOf e))
  | PExpr.columnVal t nm, st, M, h => by
    have hl : List.lookup t M = some (getTableNumber st t).1 :=
      h t _ (addTable_lookup st t)
    simp [evalExpr, renderExpr, tablesOf, addAll, hl, addTable]
  | PExpr.unaryOp sym e, st, M, h => by
    have e1 := evalExpr_spec e st M h
    simp [evalExpr, renderExpr, tablesOf, e1]
  | PExpr.binaryOp sym l r, st, M, h => by
    have happ : addAll st (tablesOf l ++ tablesOf r)
        = addAll (addAll st (tablesOf l)) (tablesOf r) := addAll_append _ _ _
    have h2 : MapLe (addAll (addAll st (tablesOf l)) (tablesOf r)).numbers M := by
      rw [← happ]; exact h
    have h1 : MapLe (addAll st (tablesOf l)).numbers M :=
      mapLe_trans (addAll_le _ _) h2
    have e1 := evalExpr_spec l st M h1
    have e2 := evalExpr_spec r (addAll st (tablesOf l)) M h2
    simp [evalExpr, renderExpr, tablesOf, e1, e2, happ]
  | PExpr.const v, st, M, h => by
    simp [evalExpr, renderExpr, tablesOf, addAll]
  | PExpr.reducer nm args, st, M, h => by
    have e1 := evalList_spec args st M h
    simp [evalExpr, renderExpr, tablesOf, e1]
  | PExpr.reducerIx nm args, st, M, h => by
    have e1 := evalList_spec args st M h
    simp [evalExpr, renderExpr, tablesOf, e1]
  | PExpr.applyFn f args kwargs, st, M, h => by
    have happ : addAll st (tablesOfList args ++ tablesOfKwargs kwargs)
        = addAll (addAll st (tablesOfList args)) (tablesOfKwargs kwargs) := addAll_append _ _ _
    have h2 : MapLe (addAll (addAll st (tablesOfList args)) (tablesOfKwargs kwargs)).numbers M := by
      rw [← happ]; exact h
    have h1 : MapLe (addAll st (tablesOfList args)).numbers M :=
      mapLe_trans (addAll_le _ _) h2
    have e1 := evalList_spec args st M h1
    have e2 := evalKwargs_spec kwargs (addAll st (tablesOfList args)) M h2
    simp [evalExpr, renderExpr, tablesOf, e1, e2, happ]
  | PExpr.asyncApplyFn f args kwargs, st, M, h => by
    have happ : addAll st (tablesOfList args ++ tablesOfKwargs kwargs)
        = addAll (addAll st (tablesOfList args)) (tablesOfKwargs kwargs) := addAll_append _ _ _
    have h2 : MapLe (addAll (addAll st (tablesOfList args)) (tablesOfKwargs kwargs)).numbers M := by
      rw [← happ]; exact h
    have h1 : MapLe (addAll st (tablesOfList args)).numbers M :=
      mapLe_trans (addAll_le _ _) h2
    have e1 := evalList_spec args st M h1
    have e2 := evalKwargs_spec kwargs (addAll st (tablesOfList args)) M h2
    simp [evalExpr, renderExpr, tablesOf, e1, e2, happ]
  | PExpr.numbaApplyFn f args kwargs, st, M, h => by
    have happ : addAll st (tablesOfList args ++ tablesOfKwargs kwargs)
        = addAll (addAll st (tablesOfList args)) (tablesOfKwargs kwargs) := addAll_append _ _ _
    have h2 : MapLe (addAll (addAll st (tablesOfList args)) (tablesOfKwargs kwargs)).numbers M := by
      rw [← happ]; exact h
    have h1 : MapLe (addAll st (tablesOfList args)).numbers M :=
      mapLe_trans (addAll_le _ _) h2
    have e1 := evalList_spec args st M h1
    have e2 := evalKwargs_spec kwargs (addAll st (tablesOfList args)) M h2
    simp [evalExpr, renderExpr, tablesOf, e1, e2, happ]
  | PExpr.pointer t args opt, st, M, h => by
    have happ : addAll st (tablesOfList args ++ [t])
        = addAll (addAll st (tablesOfList args)) [t] := addAll_append _ _ _
    have h2 : MapLe (addAll (addAll st (tablesOfList args)) [t]).numbers M := by
      rw [← happ]; exact h
    have h1 : MapLe (addAll st (tablesOfList args)).numbers M :=
      mapLe_trans (addAll_le _ _) h2
    have e1 := evalList_spec args st M h1
    have hl : List.lookup t M = some (getTableNumber (addAll st (tablesOfList args)) t).1 :=
      h2 t _ (addTable_lookup (addAll st (tablesOfList args)) t)
    simp [evalExpr, renderExpr, tablesOf, e1, hl, happ, addAll, addTable]
  | PExpr.ix keysExpr opt colTable colName, st, M, h => by
    have happ : addAll st (tablesOf keysExpr ++ [colTable])
        = addAll (addAll st (tablesOf keysExpr)) [colTable] := addAll_append _ _ _
    have h2 : MapLe (addAll (addAll st (tablesOf keysExpr)) [colTable]).numbers M := by
      rw [← happ]; exact h
    have h1 : MapLe (addAll st (tablesOf keysExpr)).numbers M :=
      mapLe_trans (addAll_le _ _) h2
    have e1 := evalExpr_spec keysExpr st M h1
    have hl : List.lookup colTable M
        = some (getTableNumber (addAll st (tablesOf keysExpr)) colTable).1 :=
      h2 colTable _ (addTable_lookup (addAll st (tablesOf keysExpr)) colTable)
    simp [evalExpr, renderExpr, tablesOf, e1, hl, happ, addAll, addTable]
  | PExpr.call colExpr args, st, M, h => by
    have happ : addAll st (tablesOfList args ++ tablesOf colExpr)
        = addAll (addAll st (tablesOfList args)) (tablesOf colExpr) := addAll_append _ _ _
    have h2 : MapLe (addAll (addAll st (tablesOfList args)) (tablesOf colExpr)).numbers M := by
      rw [← happ]; exact h
    have h1 : MapLe (addAll st (tablesOfList args)).numbers M :=
      mapLe_trans (addAll_le _ _) h2
    have e1 := evalList_spec args st M h1
    have e2 := evalExpr_spec colExpr (addAll st (tablesOfList args)) M h2
    simp [evalExpr, renderExpr, tablesOf, e1, e2, happ]
  | PExpr.castExpr tn e, st, M, h => by
    have e1 := evalExpr_spec e st M h
    simp [evalExpr, renderExpr, tablesOf, e1]
  | PExpr.declareType tn e, st, M, h => by
    have e1 := evalExpr_spec e st M h
    simp [evalExpr, renderExpr, tablesOf, e1]
  | PExpr.coalesce args, st, M, h => by
    have e1 := evalList_spec args st M h
    simp [evalExpr, renderExpr, tablesOf, e1]
  | PExpr.require v args, st, M, h => by
    have happ : addAll st (tablesOf v ++ tablesOfList args)
        = addAll (addAll st (tablesOf v)) (tablesOfList args) := addAll_append _ _ _
    have h2 : MapLe (addAll (addAll st (tablesOf v)) (tablesOfList args)).numbers M := by
      rw [← happ]; exact h
    have h1 : MapLe (addAll st (tablesOf v)).numbers M :=
      mapLe_trans (addAll_le _ _) h2
    have e1 := evalExpr_spec v st M h1
    have e2 := evalList_spec args (addAll st (tablesOf v)) M h2
    simp [evalExpr, renderExpr, tablesOf, e1, e2, happ]
  | PExpr.ifElse i t e, st, M, h => by
    have happ1 : addAll st ((tablesOf i ++ tablesOf t) ++ tablesOf e)
        = addAll (addAll st (tablesOf i ++ tablesOf t)) (tablesOf e) := addAll_append _ _ _
    have happ2 : addAll st (tablesOf i ++ tablesOf t)
        = addAll (addAll st (tablesOf i)) (tablesOf t) := addAll_append _ _ _
    have h3 : MapLe (addAll (addAll (addAll st (tablesOf i)) (tablesOf t)) (tablesOf e)).numbers M := by
      rw [← happ2, ← happ1]; exact h
    have h2 : MapLe (addAll (addAll st (tablesOf i)) (tablesOf t)).numbers M :=
      mapLe_trans (addAll_le _ _) h3
    have h1 : MapLe (addAll st (tablesOf i)).numbers M :=
      mapLe_trans (addAll_le _ _) h2
    have e1 := evalExpr_spec i st M h1
    have e2 := evalExpr_spec t (addAll st (tablesOf i)) M h2
    have e3 := evalExpr_spec e (addAll (addAll st (tablesOf i)) (tablesOf t)) M h3
    simp only [evalExpr, renderExpr, tablesOf, e1, e2, e3]
    rw [addAll_append, addAll_append]
  | PExpr.methodCall nm obj args, st, M, h => by
    have happ : addAll st (tablesOf obj ++ tablesOfList args)
        = addAll (addAll st (tablesOf obj)) (tablesOfList args) := addAll_append _ _ _
    have h2 : MapLe (addAll (addAll st (tablesOf obj)) (tablesOfList args)).numbers M := by
      rw [← happ]; exact h
    have h1 : MapLe (addAll st (tablesOf obj)).numbers M :=
      mapLe_trans (addAll_le _ _) h2
    have e1 := evalExpr_spec obj st M h1
    have e2 := evalList_spec args (addAll st (tablesOf obj)) M h2
    simp [evalExpr, renderExpr, tablesOf, e1, e2, happ]
  | PExpr.makeTuple args, st, M, h => by
    have e1 := evalList_spec args st M h
    simp [evalExpr, renderExpr, tablesOf, e1]
  | PExpr.seqGet obj idx dflt check, st, M, h => by
    by_cases hc : check = true
    · subst hc
      have happ1 : addAll st ((tablesOf obj ++ tablesOf idx) ++ tablesOf dflt)
          = addAll (addAll st (tablesOf obj ++ tablesOf idx)) (tablesOf dflt) := addAll_append _ _ _
      have happ2 : addAll st (tablesOf obj ++ tablesOf idx)
          = addAll (addAll st (tablesOf obj)) (tablesOf idx) := addAll_append _ _ _
      have h3 : MapLe (addAll (addAll (addAll st (tablesOf obj)) (tablesOf idx)) (tablesOf dflt)).numbers M := by
        rw [← happ2, ← happ1]
        simpa [tablesOf] using h
      have h2 : MapLe (addAll (addAll st (tablesOf obj)) (tablesOf idx)).numbers M :=
        mapLe_trans (addAll_le _ _) h3
      have h1 : MapLe (addAll st (tablesOf obj)).numbers M :=
        mapLe_trans (addAll_le _ _) h2
      have e1 := evalExpr_spec obj st M h1
      have e2 := evalExpr_spec idx (addAll st (tablesOf obj)) M h2
      have e3 := evalExpr_spec dflt (addAll (addAll st (tablesOf obj)) (tablesOf idx)) M h3
      simp only [evalExpr, renderExpr, tablesOf, e1, e2, e3, if_true]
      rw [addAll_append, addAll_append]
    · have hc2 : check = false := by simpa using hc
      subst hc2
      have h2 : MapLe (addAll (addAll st (tablesOf obj)) (tablesOf idx)).numbers M := by
        have h0 := h
        rw [show tablesOf (PExpr.seqGet obj idx dflt false)
            = (tablesOf obj ++ tablesOf idx) ++ [] from rfl] at h0
        rw [List.append_nil, addAll_append] at h0
        exact h0
      have h1 : MapLe (addAll st (tablesOf obj)).numbers M :=
        mapLe_trans (addAll_le _ _) h2
      have e1 := evalExpr_spec obj st M h1
      have e2 := evalExpr_spec idx (addAll st (tablesOf obj)) M h2
      simp [evalExpr, renderExpr, tablesOf, e1, e2, addAll_append]

theorem evalList_spec : ∀ (l : PExprList) (st : FmtState) (M : List (Nat × Nat)),
    MapLe (addAll st (tablesOfList l)).numbers M →
    evalList l st = (renderList M l, addAll st (tablesOfList l))
  | PExprList.nil, st, M, h => by
    simp [evalList, renderList, tablesOfList, addAll]
  | PExprList.cons e rest, st, M, h => by
    have happ : addAll st (tablesOf e ++ tablesOfList rest)
        = addAll (addAll st (tablesOf e)) (tablesOfList rest) := addAll_append _ _ _
    have h2 : MapLe (addAll (addAll st (tablesOf e)) (tablesOfList rest)).numbers M := by
      rw [← happ]; exact h
    have h1 : MapLe (addAll st (tablesOf e)).numbers M :=
      mapLe_trans (addAll_le _ _) h2
    have e1 := evalExpr_spec e st M h1
    have e2 := evalList_spec rest (addAll st (tablesOf e)) M h2
    simp [evalList, renderList, tablesOfList, e1, e2, happ]

theorem evalKwargs_spec : ∀ (kw : PKwargs) (st : FmtState) (M : List (Nat × Nat)),
    MapLe (addAll st (tablesOfKwargs kw)).numbers M →
    evalKwargs kw st = (renderKwargs M kw, addAll st (tablesOfKwargs kw))
  | PKwargs.nil, st, M, h => by
    simp [evalKwargs, renderKwargs, tablesOfKwargs, addAll]
  | PKwargs.cons k e rest, st, M, h => by
    have happ : addAll st (tablesOf e ++ tablesOfKwargs rest)
        = addAll (addAll st (tablesOf e)) (tablesOfKwargs rest) := addAll_append _ _ _
    have h2 : MapLe (addAll (addAll st (tablesOf e)) (tablesOfKwargs rest)).numbers M := by
      rw [← happ]; exact h
    have h1 : MapLe (addAll st (tablesOf e)).numbers M :=
      mapLe_trans (addAll_le _ _) h2
    have e1 := evalExpr_spec e st M h1
    have e2 := evalKwargs_spec rest (addAll st (tablesOf e)) M h2
    simp [evalKwargs, renderKwargs, tablesOfKwargs, e1, e2, happ]
end

/-- The tables of `l` not yet in `dom`, first occurrences in order. -/
def newTables (dom : List Nat) : List Nat → List Nat
  | [] => []
  | t :: ts => if t ∈ dom then newTables dom ts else t :: newTables (t :: dom) ts

/-- Pair a table list with consecutive numbers from `i`. -/
def label (i : Nat) : List Nat → List (Nat × Nat)
  | [] => []
  | t :: ts => (t, i) :: label (i + 1) ts

/-- `newTables` only cares about membership of the seen-set. -/
theorem newTables_congr (l : List Nat) (d1 d2 : List Nat)
    (h : ∀ x, x ∈ d1 ↔ x ∈ d2) : newTables d1 l = newTables d2 l := by
  induction l generalizing d1 d2 with
  | nil => rfl
  | cons t ts ih =>
    by_cases ht : t ∈ d1
    · simp [newTables, ht, (h t).mp ht, ih d1 d2 h]
    · have ht2 : t ∉ d2 := fun hc => ht ((h t).mpr hc)
      simp only [newTables, ht, ht2, if_neg, if_false]
      rw [ih (t :: d1) (t :: d2) (fun x => by simp [h x])]

/-- A lookup succeeds exactly on the stored keys. -/
theorem lookup_isSome_iff {α β : Type} [DecidableEq α] (l : List (α × β)) (t : α) :
    (List.lookup t l).isSome ↔ t ∈ l.map Prod.fst := by
  induction l with
  | nil => simp [List.lookup]
  | cons p rest ih =>
    by_cases hp : t = p.1
    · simp [List.lookup, hp]
    · have hpb : (t == p.1) = false := by simp [hp]
      simp [List.lookup, hpb, ih, hp]

/-- The assignments an access sequence appends: the unseen tables in
first-encounter order, numbered consecutively from the current counter. -/
theorem addAll_numbers (l : List Nat) (st : FmtState) :
    (addAll st l).numbers
      = st.numbers ++ label st.counter (newTables (st.numbers.map Prod.fst) l) := by
  induction l generalizing st with
  | nil => simp [addAll, label, newTables]
  | cons t ts ih =>
    show (addAll (addTable st t) ts).numbers = _
    by_cases ht : (List.lookup t st.numbers).isSome
    · obtain ⟨n, hn⟩ := Option.isSome_iff_exists.mp ht
      have hdom : t ∈ st.numbers.map Prod.fst := (lookup_isSome_iff _ _).mp ht
      have hskip : addTable st t = st := by
        simp [addTable, getTableNumber, hn]
      rw [hskip, ih]
      simp [newTables, hdom]
    · have hn : List.lookup t st.numbers = Option.none := by
        cases hx : List.lookup t st.numbers with
        | none => rfl
        | some k => rw [hx] at ht; simp at ht
      have hdom : t ∉ st.numbers.map Prod.fst := fun hc =>
        ht ((lookup_isSome_iff _ _).mpr hc)
      have hstep : addTable st t
          = ⟨st.counter + 1, st.numbers ++ [(t, st.counter)]⟩ := by
        simp [addTable, getTableNumber, hn]
      rw [hstep, ih]
      simp only [newTables, hdom, if_neg, if_false, label]
      have hmap : (st.numbers ++ [(t, st.counter)]).map Prod.fst
          = st.numbers.map Prod.fst ++ [t] := by simp
      rw [hmap]
      rw [newTables_congr ts (st.numbers.map Prod.fst ++ [t]) (t :: st.numbers.map Prod.fst)
        (fun x => by simp [or_comm])]
      simp [label]

/-- C9: formatting the same tree twice with one `ExpressionFormatter`
instance yields byte-identical output and identical table numbering (the
second pass changes nothing); the distinct tables of the tree are numbered
`1, 2, ...` in first-encounter order, and the numbering is local to the
instance (a fresh instance starts again from 1 with an empty map). -/
theorem claim_C9 (e : PExpr) :
    (evalExpr e initState).1 = (evalExpr e (evalExpr e initState).2).1
    ∧ (evalExpr e (evalExpr e initState).2).2 = (evalExpr e initState).2
    ∧ (evalExpr e initState).2.numbers = label 1 (newTables [] (tablesOf e)) := by
  have h1 := evalExpr_spec e initState (addAll initState (tablesOf e)).numbers
    (mapLe_refl _)
  have hidem : addAll (addAll initState (tablesOf e)) (tablesOf e)
      = addAll initState (tablesOf e) := addAll_idem _ _
  have h2 := evalExpr_spec e (addAll initState (tablesOf e))
    (addAll initState (tablesOf e)).numbers
    (by rw [hidem]; exact mapLe_refl _)
  rw [hidem] at h2
  refine ⟨?_, ?_, ?_⟩
  · rw [h1]
    simp [h2]
  · rw [h1]
    simp [h2]
  · rw [h1]
    have := addAll_numbers (tablesOf e) initState
    simpa [initState] using this

/-! ## Claim C2: dictionary lemmas -/

theorem mem_dedupFirst {α : Type} [DecidableEq α] (l : List α) (x : α) :
    x ∈ dedupFirst l ↔ x ∈ l := by
  induction l with
  | nil => simp [dedupFirst]
  | cons y ys ih =>
    rw [dedupFirst]
    by_cases hx : x = y
    · simp [hx]
    · simp only [List.mem_cons, hx, false_or, List.mem_filter]
      simp [hx, ih]

theorem dedupFirst_nodup {α : Type} [DecidableEq α] (l : List α) :
    (dedupFirst l).Nodup := by
  induction l with
  | nil => simp [dedupFirst]
  | cons y ys ih =>
    rw [dedupFirst]
    refine List.nodup_cons.mpr ⟨?_, List.Nodup.filter _ ih⟩
    intro hc
    have := (List.mem_filter.mp hc).2
    simp at this

theorem dedupFirst_eq_self {α : Type} [DecidableEq α] (l : List α) (h : l.Nodup) :
    dedupFirst l = l := by
  induction l with
  | nil => simp [dedupFirst]
  | cons y ys ih =>
    rw [dedupFirst]
    have hy : y ∉ ys := (List.nodup_cons.mp h).1
    rw [ih (List.nodup_cons.mp h).2]
    rw [List.filter_eq_self.mpr]
    intro z hz
    simp
    intro hzy
    exact hy (hzy ▸ hz)

theorem dedupFirst_toFinset {α : Type} [DecidableEq α] (l : List α) :
    (dedupFirst l).toFinset = l.toFinset := by
  ext x
  simp [mem_dedupFirst]

theorem dedupFirst_length {α : Type} [DecidableEq α] (l : List α) :
    (dedupFirst l).length = l.toFinset.card := by
  rw [← dedupFirst_toFinset]
  exact (List.toFinset_card_of_nodup (dedupFirst_nodup l)).symm

theorem length_filterMap_of_isSome {α β : Type} (f : α → Option β) (l : List α)
    (h : ∀ x ∈ l, (f x).isSome) : (l.filterMap f).length = l.length := by
  induction l with
  | nil => rfl
  | cons a rest ih =>
    obtain ⟨b, hb⟩ := Option.isSome_iff_exists.mp (h a (by simp))
    simp only [List.filterMap_cons, hb, List.length_cons]
    rw [ih (fun x hx => h x (by simp [hx]))]

/-- Python dict assignment of a fresh key appends. -/
theorem dictInsert_fresh {α β : Type} [DecidableEq α] (d : List (α × β)) (k : α)
    (v : β) (h : k ∉ d.map Prod.fst) : dictInsert d k v = d ++ [(k, v)] := by
  simp [dictInsert, h]

/-- Looking a key up in a keyed map over a key list. -/
theorem lookup_map_keys {α β : Type} [DecidableEq α] (K : List α) (g : α → β) (k : α) :
    List.lookup k (K.map (fun n => (n, g n))) = if k ∈ K then some (g k) else Option.none := by
  induction K with
  | nil => simp [List.lookup]
  | cons a rest ih =>
    by_cases hk : k = a
    · simp [List.lookup, hk]
    · have hkb : (k == a) = false := by simp [hk]
      simp only [List.map_cons, List.lookup, hkb]
      rw [ih]
      simp [hk]

/-- Looking up through a key-preserving, key-determined rewrite of a field
dict. -/
theorem lookup_map_rewrite {β : Type} (fld : List (String × β)) (P : String → Prop)
    [DecidablePred P] (g : String → β) (k : String) :
    List.lookup k (fld.map (fun p => if P p.1 then (p.1, g p.1) else p))
      = if P k then (List.lookup k fld).map (fun _ => g k) else List.lookup k fld := by
  induction fld with
  | nil => simp [List.lookup]
  | cons p rest ih =>
    obtain ⟨a, b⟩ := p
    by_cases hp : P a
    · rw [show (((a, b) :: rest).map fun p => if P p.1 then (p.1, g p.1) else p)
          = (a, g a) :: (rest.map fun p => if P p.1 then (p.1, g p.1) else p) by
        simp [hp]]
      by_cases hk : k = a
      · subst hk
        simp [List.lookup, hp]
      · have hkb : (k == a) = false := by simp [hk]
        simp only [List.lookup, hkb]
        exact ih
    · rw [show (((a, b) :: rest).map fun p => if P p.1 then (p.1, g p.1) else p)
          = (a, b) :: (rest.map fun p => if P p.1 then (p.1, g p.1) else p) by
        simp [hp]]
      by_cases hk : k = a
      · subst hk
        simp [List.lookup, hp]
      · have hkb : (k == a) = false := by simp [hk]
        simp only [List.lookup, hkb]
        exact ih

/-- Keys survive the key-preserving rewrite. -/
theorem map_fst_map_rewrite {β : Type} (fld : List (String × β)) (P : String → Prop)
    [DecidablePred P] (g : String → β) :
    (fld.map (fun p => if P p.1 then (p.1, g p.1) else p)).map Prod.fst
      = fld.map Prod.fst := by
  induction fld with
  | nil => rfl
  | cons p rest ih =>
    obtain ⟨a, b⟩ := p
    by_cases hp : P a
    · simp only [List.map_cons]
      rw [show (if P (a, b).1 then ((a, b).1, g (a, b).1) else (a, b)) = (a, g a) by
        simp [hp]]
      simp [ih]
    · simp only [List.map_cons]
      rw [show (if P (a, b).1 then ((a, b).1, g (a, b).1) else (a, b)) = (a, b) by
        simp [hp]]
      simp [ih]

/-- `ChainMap` lookup over two maps. -/
theorem firstLookup_pair {β : Type} (m1 m2 : List (String × β)) (k : String) :
    firstLookup [m1, m2] k
      = (List.lookup k m1).orElse (fun _ => List.lookup k m2) := by
  cases h1 : List.lookup k m1 with
  | some v => simp [firstLookup, h1, Option.orElse]
  | none =>
    cases h2 : List.lookup k m2 with
    | some v => simp [firstLookup, h1, h2, Option.orElse]
    | none => simp [firstLookup, h1, h2, Option.orElse]

theorem lookup_eq_none_of_not_mem {α β : Type} [DecidableEq α]
    (l : List (α × β)) (k : α) (h : k ∉ l.map Prod.fst) :
    List.lookup k l = Option.none := by
  cases hx : List.lookup k l with
  | none => rfl
  | some v =>
    exact absurd ((lookup_isSome_iff l k).mp (by simp [hx])) h

/-- Lookup in a map keyed over a key list by any partial value function. -/
theorem lookup_filterMap_keyed {β : Type} (f : String → Option β) (K : List String)
    (k : String) :
    List.lookup k (K.filterMap (fun x => (f x).map (fun v => (x, v))))
      = if k ∈ K then f k else Option.none := by
  induction K with
  | nil => simp [List.lookup]
  | cons a rest ih =>
    by_cases hk : k = a
    · subst hk
      cases hv : f k with
      | some v =>
        have : ((f k).map (fun v => (k, v))) = some (k, v) := by simp [hv]
        rw [List.filterMap_cons, this]
        simp [List.lookup]
      | none =>
        have : ((f k).map (fun v => (k, v))) = Option.none := by simp [hv]
        rw [List.filterMap_cons, this, ih]
        by_cases hkr : k ∈ rest
        · simp [hkr, hv]
        · simp [hkr]
    · have hkb : (k == a) = false := by simp [hk]
      cases hv : f a with
      | some v =>
        have : ((f a).map (fun v => (a, v))) = some (a, v) := by simp [hv]
        rw [List.filterMap_cons, this]
        simp only [List.lookup, hkb]
        rw [ih]
        simp [hk]
      | none =>
        have : ((f a).map (fun v => (a, v))) = Option.none := by simp [hv]
        rw [List.filterMap_cons, this, ih]
        simp [hk]

/-- A key outside every chained map has no chain value. -/
theorem firstLookup_none {β : Type} (ms : List (List (String × β))) (k : String)
    (h : ∀ m ∈ ms, k ∉ m.map Prod.fst) : firstLookup ms k = Option.none := by
  induction ms with
  | nil => rfl
  | cons m rest ih =>
    simp only [firstLookup, lookup_eq_none_of_not_mem m k (h m (by simp))]
    simpa [Option.orElse] using ih (fun m2 hm2 => h m2 (by simp [hm2]))

/-- `dict(ChainMap(...))` looks up like the chain itself. -/
theorem dictChain_lookup {β : Type} (ms : List (List (String × β))) (k : String) :
    List.lookup k (dictChain ms) = firstLookup ms k := by
  unfold dictChain
  rw [lookup_filterMap_keyed]
  by_cases hkK : k ∈ dedupFirst ((ms.reverse.map (fun m => m.map Prod.fst)).flatten)
  · rw [if_pos hkK]
  · rw [if_neg hkK]
    refine (firstLookup_none ms k ?_).symm
    intro m hm hc
    apply hkK
    apply (mem_dedupFirst _ _).mpr
    apply List.mem_flatten.mpr
    refine ⟨m.map Prod.fst, ?_, hc⟩
    apply List.mem_map.mpr
    exact ⟨m, by simp [hm], rfl⟩

/-! ## Claim C2: the column-construction loop -/

theorem lookup_updateField (fld : List (String × ColumnDefinition)) (n : String)
    (c : ColumnDefinition) (m : String) :
    List.lookup m (updateField fld n c)
      = if m = n then (List.lookup m fld).map (fun _ => c) else List.lookup m fld := by
  have h := lookup_map_rewrite fld (fun x => x = n) (fun _ => c) m
  exact h

theorem stepCol_updateField_ne (ann : List (String × DType))
    (fld : List (String × ColumnDefinition)) (n : String) (c : ColumnDefinition)
    (m : String) (h : m ≠ n) :
    stepCol ann (updateField fld n c) m = stepCol ann fld m := by
  unfold stepCol
  rw [lookup_updateField]
  simp [h]

theorem stepCheck_updateField_ne (ann : List (String × DType))
    (fld : List (String × ColumnDefinition)) (n : String) (c : ColumnDefinition)
    (m : String) (h : m ≠ n) :
    stepCheck ann (updateField fld n c) m = stepCheck ann fld m := by
  unfold stepCheck
  rw [stepCol_updateField_ne ann fld n c m h]

theorem stepName_updateField_ne (fld : List (String × ColumnDefinition)) (n : String)
    (c : ColumnDefinition) (m : String) (h : m ≠ n) :
    stepName (updateField fld n c) m = stepName fld m := by
  unfold stepName
  rw [lookup_updateField]
  simp [h]

/-- Re-deriving a column from the already-updated field entry changes
nothing: the in-place dtype fill is idempotent. -/
theorem stepCol_restep (ann : List (String × DType))
    (fld : List (String × ColumnDefinition)) (n : String) :
    stepCol ann (updateField fld n (stepCol ann fld n)) n = stepCol ann fld n := by
  unfold stepCol
  rw [lookup_updateField]
  simp only [if_pos rfl]
  cases hc : List.lookup n fld with
  | none => simp
  | some c =>
    simp only [Option.map_some, Option.getD_some]
    by_cases hd : c.dtype = Option.none
    · simp [hd]
    · simp [hd]

theorem stepCheck_restep (ann : List (String × DType))
    (fld : List (String × ColumnDefinition)) (n : String) :
    stepCheck ann (updateField fld n (stepCol ann fld n)) n = stepCheck ann fld n := by
  unfold stepCheck
  rw [stepCol_restep]

theorem stepName_restep (ann : List (String × DType))
    (fld : List (String × ColumnDefinition)) (n : String) :
    stepName (updateField fld n (stepCol ann fld n)) n = stepName fld n := by
  unfold stepName stepCol
  rw [lookup_updateField]
  simp only [if_pos rfl]
  cases hc : List.lookup n fld with
  | none => simp
  | some c =>
    simp only [Option.map_some, Option.getD_some]
    by_cases hd : c.dtype = Option.none
    · simp [hd]
    · simp [hd]

/-- The loop of `_create_column_definitions`, fully characterized: under
distinct names that pass the dtype check and are not renamed, it succeeds;
the fields dict gets each processed entry replaced by its derived column,
and the columns dict extends `cols` by the derived columns in name
order. -/
theorem processColumns_spec (ann : List (String × DType)) (names : List String)
    (fld cols : List (String × ColumnDefinition))
    (hnd : names.Nodup)
    (hchk : ∀ n ∈ names, stepCheck ann fld n = true)
    (hnm : ∀ n ∈ names, stepName fld n = n)
    (hfresh : ∀ n ∈ names, n ∉ cols.map Prod.fst) :
    processColumns ann names fld cols
      = Except.ok (fld.map (fun p => if p.1 ∈ names then (p.1, stepCol ann fld p.1) else p),
          cols ++ names.map (fun n => (n, stepCol ann fld n))) := by
  induction names generalizing fld cols with
  | nil => simp [processColumns]
  | cons n rest ih =>
    have hchkn := hchk n (by simp)
    have hnotin : n ∉ rest := (List.nodup_cons.mp hnd).1
    have hstep : processColumns ann (n :: rest) fld cols
        = processColumns ann rest (updateField fld n (stepCol ann fld n))
            (dictInsert cols (stepName fld n) (stepCol ann fld n)) := by
      simp [processColumns, hchkn]
    rw [hstep, hnm n (by simp),
      dictInsert_fresh cols n _ (hfresh n (by simp))]
    have hchk2 : ∀ m ∈ rest, stepCheck ann (updateField fld n (stepCol ann fld n)) m = true := by
      intro m hm
      rw [stepCheck_updateField_ne ann fld n _ m (fun he => hnotin (he ▸ hm))]
      exact hchk m (by simp [hm])
    have hnm2 : ∀ m ∈ rest, stepName (updateField fld n (stepCol ann fld n)) m = m := by
      intro m hm
      rw [stepName_updateField_ne fld n _ m (fun he => hnotin (he ▸ hm))]
      exact hnm m (by simp [hm])
    have hfresh2 : ∀ m ∈ rest, m ∉ (cols ++ [(n, stepCol ann fld n)]).map Prod.fst := by
      intro m hm hc
      simp only [List.map_append, List.mem_append] at hc
      rcases hc with hc | hc
      · exact hfresh m (by simp [hm]) hc
      · simp at hc
        exact hnotin (hc ▸ hm)
    rw [ih (updateField fld n (stepCol ann fld n)) (cols ++ [(n, stepCol ann fld n)])
      (List.nodup_cons.mp hnd).2 hchk2 hnm2 hfresh2]
    have hfields : (updateField fld n (stepCol ann fld n)).map
          (fun p => if p.1 ∈ rest then (p.1, stepCol ann (updateField fld n (stepCol ann fld n)) p.1) else p)
        = fld.map (fun p => if p.1 ∈ n :: rest then (p.1, stepCol ann fld p.1) else p) := by
      have hstep1 : (updateField fld n (stepCol ann fld n)).map
            (fun p => if p.1 ∈ rest then (p.1, stepCol ann (updateField fld n (stepCol ann fld n)) p.1) else p)
          = (updateField fld n (stepCol ann fld n)).map
            (fun p => if p.1 ∈ rest then (p.1, stepCol ann fld p.1) else p) := by
        apply List.map_congr_left
        intro p _
        by_cases hpr : p.1 ∈ rest
        · rw [if_pos hpr, if_pos hpr,
            stepCol_updateField_ne ann fld n _ p.1 (fun he => hnotin (he ▸ hpr))]
        · rw [if_neg hpr, if_neg hpr]
      rw [hstep1]
      show (fld.map (fun p => if p.1 = n then (p.1, stepCol ann fld n) else p)).map
          (fun p => if p.1 ∈ rest then (p.1, stepCol ann fld p.1) else p) = _
      rw [List.map_map]
      apply List.map_congr_left
      intro p _
      by_cases hpn : p.1 = n
      · have h1 : (if p.1 = n then (p.1, stepCol ann fld n) else p)
            = (p.1, stepCol ann fld n) := by rw [if_pos hpn]
        simp only [Function.comp_apply, h1]
        rw [if_neg (by simpa [hpn] using hnotin)]
        rw [if_pos (by simp [hpn])]
        rw [hpn]
      · have h1 : (if p.1 = n then (p.1, stepCol ann fld n) else p) = p := by
          rw [if_neg hpn]
        simp only [Function.comp_apply, h1]
        by_cases hpr : p.1 ∈ rest
        · rw [if_pos hpr, if_pos (by simp [hpr])]
        · rw [if_neg hpr, if_neg (by simp [hpn, hpr])]
    have hcols : (cols ++ [(n, stepCol ann fld n)])
          ++ rest.map (fun m => (m, stepCol ann (updateField fld n (stepCol ann fld n)) m))
        = cols ++ (n :: rest).map (fun m => (m, stepCol ann fld m)) := by
      rw [List.append_assoc]
      congr 1
      simp only [List.map_cons, List.singleton_append]
      congr 1
      apply List.map_congr_left
      intro m hm
      rw [stepCol_updateField_ne ann fld n _ m (fun he => hnotin (he ▸ hm))]
    rw [hfields, hcols]

/-- A successful loop run had every name pass the dtype check (on the
original fields: distinct names make the in-place updates invisible to each
other's checks). -/
theorem processColumns_checks (ann : List (String × DType)) (names : List String)
    (fld cols : List (String × ColumnDefinition))
    (fc : List (String × ColumnDefinition) × List (String × ColumnDefinition))
    (hnd : names.Nodup)
    (hok : processColumns ann names fld cols = Except.ok fc) :
    ∀ n ∈ names, stepCheck ann fld n = true := by
  induction names generalizing fld cols with
  | nil => intro n hn; cases hn
  | cons n rest ih =>
    have hnotin : n ∉ rest := (List.nodup_cons.mp hnd).1
    by_cases hc : stepCheck ann fld n = true
    · intro m hm
      rcases List.mem_cons.mp hm with h | h
      · exact h ▸ hc
      · have hok2 : processColumns ann rest (updateField fld n (stepCol ann fld n))
            (dictInsert cols (stepName fld n) (stepCol ann fld n)) = Except.ok fc := by
          simpa [processColumns, hc] using hok
        have := ih (updateField fld n (stepCol ann fld n)) _
          (List.nodup_cons.mp hnd).2 hok2 m h
        rwa [stepCheck_updateField_ne ann fld n _ m (fun he => hnotin (he ▸ h))] at this
    · exfalso
      have : processColumns ann (n :: rest) fld cols = Except.error PyErr.typeError := by
        simp [processColumns, hc]
      rw [this] at hok
      cases hok

theorem lookup_mem {α β : Type} [DecidableEq α] (l : List (α × β)) (k : α) (v : β)
    (h : List.lookup k l = some v) : (k, v) ∈ l := by
  induction l with
  | nil => simp [List.lookup] at h
  | cons p rest ih =>
    by_cases hk : k = p.1
    · subst hk
      simp only [List.lookup, beq_self_eq_true] at h
      obtain ⟨a, b⟩ := p
      simp only at h
      simp [← Option.some.inj h]
    · have hkb : (k == p.1) = false := by simp [hk]
      simp only [List.lookup, hkb] at h
      simp [ih h]

theorem lookup_of_mem_nodup {α β : Type} [DecidableEq α] (l : List (α × β))
    (k : α) (v : β) (hnd : (l.map Prod.fst).Nodup) (h : (k, v) ∈ l) :
    List.lookup k l = some v := by
  induction l with
  | nil => cases h
  | cons p rest ih =>
    rcases List.mem_cons.mp h with heq | hmem
    · subst heq
      simp [List.lookup]
    · have hk : k ≠ p.1 := by
        intro he
        have : p.1 ∈ rest.map Prod.fst :=
          List.mem_map.mpr ⟨(k, v), hmem, by simp [he]⟩
        exact (List.nodup_cons.mp hnd).1 this
      have hkb : (k == p.1) = false := by simp [hk]
      simp only [List.lookup, hkb]
      exact ih (List.nodup_cons.mp hnd).2 hmem

/-- Without renamed columns the stored key is the attribute name. -/
theorem stepName_of_norename (fld : List (String × ColumnDefinition)) (n : String)
    (h : ∀ p ∈ fld, p.2.cd_name = Option.none) : stepName fld n = n := by
  unfold stepName
  cases hl : List.lookup n fld with
  | none => rfl
  | some c =>
    have := h (n, c) (lookup_mem fld n c hl)
    simp at this
    simp [this]

/-- The derived column keeps the field's name override (or none). -/
theorem stepCol_cd_name (ann : List (String × DType))
    (fld : List (String × ColumnDefinition)) (n : String) :
    (stepCol ann fld n).cd_name
      = ((List.lookup n fld).getD (defaultColumnDefinition (stepDtype ann n))).cd_name := by
  unfold stepCol
  by_cases hd : ((List.lookup n fld).getD (defaultColumnDefinition (stepDtype ann n))).dtype
      = Option.none
  · simp only [hd, if_pos]
  · simp only [hd, if_neg, if_false]

/-- `stepCol`, `stepCheck` and `stepName` read only the annotation dtype
and the field entry of their name. -/
theorem stepCol_congr (ann1 ann2 : List (String × DType))
    (fld1 fld2 : List (String × ColumnDefinition)) (n : String)
    (hd : stepDtype ann1 n = stepDtype ann2 n)
    (hl : List.lookup n fld1 = List.lookup n fld2) :
    stepCol ann1 fld1 n = stepCol ann2 fld2 n := by
  unfold stepCol
  rw [hd, hl]

theorem stepCheck_congr (ann1 ann2 : List (String × DType))
    (fld1 fld2 : List (String × ColumnDefinition)) (n : String)
    (hd : stepDtype ann1 n = stepDtype ann2 n)
    (hl : List.lookup n fld1 = List.lookup n fld2) :
    stepCheck ann1 fld1 n = stepCheck ann2 fld2 n := by
  unfold stepCheck
  rw [hd, stepCol_congr ann1 ann2 fld1 fld2 n hd hl]

theorem stepName_congr (fld1 fld2 : List (String × ColumnDefinition)) (n : String)
    (hl : List.lookup n fld1 = List.lookup n fld2) :
    stepName fld1 n = stepName fld2 n := by
  unfold stepName
  rw [hl]

/-- A successfully constructed schema, characterized: the stored columns
are the derived ones keyed by attribute name, and the stored fields are the
input fields with each entry replaced by its derived column. -/
theorem mkSchema_spec (nm : String) (ann : List (String × DType))
    (fld : List (String × ColumnDefinition)) (S : Schema)
    (hok : mkSchema nm ann fld = Except.ok S)
    (hnm : ∀ n ∈ schemaKeys ann fld, stepName fld n = n) :
    S.sname = nm ∧ S.annotations = ann
    ∧ S.fields = fld.map
        (fun p => if p.1 ∈ schemaKeys ann fld then (p.1, stepCol ann fld p.1) else p)
    ∧ S.columns = (schemaKeys ann fld).map (fun n => (n, stepCol ann fld n)) := by
  have hnd : (schemaKeys ann fld).Nodup := dedupFirst_nodup _
  unfold mkSchema at hok
  cases hpc : processColumns ann (schemaKeys ann fld) fld [] with
  | error e => rw [hpc] at hok; cases hok
  | ok fc =>
    rw [hpc] at hok
    have hchk := processColumns_checks ann (schemaKeys ann fld) fld [] fc hnd hpc
    rw [processColumns_spec ann (schemaKeys ann fld) fld [] hnd hchk hnm
      (by intro n _ hc; simp at hc)] at hpc
    have hfc := Except.ok.inj hpc
    obtain ⟨hfld, hcols⟩ := Prod.mk.injEq _ _ _ _ ▸ hfc
    have hS := Except.ok.inj hok
    refine ⟨by rw [← hS], by rw [← hS], ?_, ?_⟩
    · rw [← hS]
      simp only []
      rw [← hfld]
    · rw [← hS]
      simp only []
      rw [← hcols]
      simp

theorem map_fst_filterMap_keyed {β : Type} (f : String → Option β) (K : List String)
    (h : ∀ k ∈ K, (f k).isSome) :
    (K.filterMap (fun x => (f x).map (fun v => (x, v)))).map Prod.fst = K := by
  induction K with
  | nil => rfl
  | cons a rest ih =>
    obtain ⟨v, hv⟩ := Option.isSome_iff_exists.mp (h a (by simp))
    have hsome : ((f a).map (fun v => (a, v))) = some (a, v) := by simp [hv]
    rw [List.filterMap_cons, hsome]
    simp only [List.map_cons]
    rw [ih (fun k hk => h k (by simp [hk]))]

/-- The keys of `dict(ChainMap(m1, m2))`: last mapping's keys first,
deduplicated. -/
theorem dictChain_pair_keys {β : Type} (m1 m2 : List (String × β)) :
    (dictChain [m1, m2]).map Prod.fst
      = dedupFirst (m2.map Prod.fst ++ m1.map Prod.fst) := by
  unfold dictChain
  have hflat : ((([m1, m2].reverse).map (fun m => m.map Prod.fst)).flatten)
      = m2.map Prod.fst ++ m1.map Prod.fst := by simp
  rw [hflat]
  apply map_fst_filterMap_keyed
  intro k hk
  have hk2 := (mem_dedupFirst _ _).mp hk
  rw [firstLookup_pair]
  cases h1 : List.lookup k m1 with
  | some v => simp [Option.orElse]
  | none =>
    rcases List.mem_append.mp hk2 with h | h
    · have := (lookup_isSome_iff m2 k).mpr h
      obtain ⟨v, hv⟩ := Option.isSome_iff_exists.mp this
      simp [Option.orElse, hv]
    · have := (lookup_isSome_iff m1 k).mpr h
      rw [h1] at this
      cases this

theorem dictChain_pair_length {β : Type} (m1 m2 : List (String × β)) :
    (dictChain [m1, m2]).length
      = (dedupFirst (m2.map Prod.fst ++ m1.map Prod.fst)).length := by
  rw [← List.length_map (dictChain [m1, m2]) Prod.fst, dictChain_pair_keys]

/-- A successful schema construction had every name pass the dtype
check. -/
theorem mkSchema_checks (nm : String) (ann : List (String × DType))
    (fld : List (String × ColumnDefinition)) (S : Schema)
    (hok : mkSchema nm ann fld = Except.ok S) :
    ∀ n ∈ schemaKeys ann fld, stepCheck ann fld n = true := by
  unfold mkSchema at hok
  cases hpc : processColumns ann (schemaKeys ann fld) fld [] with
  | error e => rw [hpc] at hok; cases hok
  | ok fc =>
    exact processColumns_checks ann (schemaKeys ann fld) fld [] fc
      (dedupFirst_nodup _) hpc

/-- The per-name facts that carry one input schema's column derivation over
to the chained run of `schema_add`: when the chained dicts agree with the
schema's own (post-construction) entries at `n`, the chained run re-derives
exactly the schema's column and passes the check. -/
theorem side_facts (annOwn CA : List (String × DType))
    (fldOwn : List (String × ColumnDefinition))
    (CF : List (String × ColumnDefinition)) (n : String)
    (hdt : List.lookup n CA = List.lookup n annOwn)
    (hfl : List.lookup n CF
      = List.lookup n (updateField fldOwn n (stepCol annOwn fldOwn n)))
    (hchk : stepCheck annOwn fldOwn n = true)
    (hnm : stepName fldOwn n = n) :
    stepCheck CA CF n = true
    ∧ stepCol CA CF n = stepCol annOwn fldOwn n
    ∧ stepName CF n = n := by
  have hd : stepDtype CA n = stepDtype annOwn n := by
    unfold stepDtype
    rw [hdt]
  refine ⟨?_, ?_, ?_⟩
  · rw [stepCheck_congr CA annOwn CF (updateField fldOwn n (stepCol annOwn fldOwn n)) n hd hfl,
      stepCheck_restep]
    exact hchk
  · rw [stepCol_congr CA annOwn CF (updateField fldOwn n (stepCol annOwn fldOwn n)) n hd hfl,
      stepCol_restep]
  · rw [stepName_congr CF (updateField fldOwn n (stepCol annOwn fldOwn n)) n hfl,
      stepName_restep, hnm]

/-- `schema_add` on two schemas once both asserts pass. -/
theorem schema_add_pair_ok (A B : Schema)
    (h1 : (dictChain [A.annotations, B.annotations]).length
        = A.annotations.length + B.annotations.length)
    (h2 : (dictChain [A.fields, B.fields]).length
        = A.fields.length + B.fields.length) :
    schema_add [A, B]
      = mkSchema (String.intercalate "_" [A.sname, B.sname])
          (dictChain [A.annotations, B.annotations])
          (dictChain [A.fields, B.fields]) := by
  unfold schema_add
  simp only [List.map_cons, List.map_nil, List.sum_cons, List.sum_nil]
  rw [if_neg (by simp [h1]), if_neg (by simp [h2])]

/-- `schema_add` on two schemas when the annotation assert fires. -/
theorem schema_add_pair_err_ann (A B : Schema)
    (h1 : (dictChain [A.annotations, B.annotations]).length
        ≠ A.annotations.length + B.annotations.length) :
    schema_add [A, B] = Except.error PyErr.assertionError := by
  unfold schema_add
  simp only [List.map_cons, List.map_nil, List.sum_cons, List.sum_nil]
  rw [if_pos (by simpa using h1)]

/-- `schema_add` on two schemas when the field assert fires (whatever the
annotation assert did, the result is the same assertion error). -/
theorem schema_add_pair_err_fld (A B : Schema)
    (h2 : (dictChain [A.fields, B.fields]).length
        ≠ A.fields.length + B.fields.length) :
    schema_add [A, B] = Except.error PyErr.assertionError := by
  unfold schema_add
  simp only [List.map_cons, List.map_nil, List.sum_cons, List.sum_nil]
  by_cases h1 : (dictChain [A.annotations, B.annotations]).length
      = A.annotations.length + B.annotations.length
  · rw [if_neg (by simp [h1]), if_pos (by simpa using h2)]
  · rw [if_pos (by simpa using h1)]

theorem dictChain_pair_length_disjoint {β : Type} (m1 m2 : List (String × β))
    (h1 : (m1.map Prod.fst).Nodup) (h2 : (m2.map Prod.fst).Nodup)
    (hdisj : ∀ k, k ∈ m1.map Prod.fst → k ∉ m2.map Prod.fst) :
    (dictChain [m1, m2]).length = m1.length + m2.length := by
  rw [dictChain_pair_length, dedupFirst_eq_self]
  · simp [Nat.add_comm]
  · rw [List.nodup_append]
    exact ⟨h2, h1, fun a ha hb => hdisj a hb ha⟩

theorem dictChain_pair_length_lt {β : Type} (m1 m2 : List (String × β))
    (h1 : (m1.map Prod.fst).Nodup) (h2 : (m2.map Prod.fst).Nodup)
    (k : String) (hk1 : k ∈ m1.map Prod.fst) (hk2 : k ∈ m2.map Prod.fst) :
    (dictChain [m1, m2]).length < m1.length + m2.length := by
  rw [dictChain_pair_length, dedupFirst_length, List.toFinset_append]
  have hcard := Finset.card_union_add_card_inter
    (m2.map Prod.fst).toFinset (m1.map Prod.fst).toFinset
  have hpos : 0 < ((m2.map Prod.fst).toFinset ∩ (m1.map Prod.fst).toFinset).card := by
    apply Finset.card_pos.mpr
    exact ⟨k, Finset.mem_inter.mpr ⟨List.mem_toFinset.mpr hk2, List.mem_toFinset.mpr hk1⟩⟩
  have hc1 : (m1.map Prod.fst).toFinset.card = m1.length := by
    rw [List.toFinset_card_of_nodup h1, List.length_map]
  have hc2 : (m2.map Prod.fst).toFinset.card = m2.length := by
    rw [List.toFinset_card_of_nodup h2, List.length_map]
  omega

set_option maxHeartbeats 1600000 in
/-- C2 (amended): for schemas `A` and `B` built without column renaming and
with unique declared keys, if the declared key sets are disjoint then
`schema_add(A, B)` succeeds with exactly `len(A) + len(B)` columns and an
`as_dict` that is the disjoint union of the two; a duplicated annotation
key, or a duplicated field key, makes `schema_add` fail at construction
time with an assertion error.  (The original claim, stated over column
names, fails: renaming splits column names from the asserted attribute
keys — see the counterexample.) -/
theorem claim_C2 (nmA nmB : String) (annA annB : List (String × DType))
    (fldA fldB : List (String × ColumnDefinition)) (A B : Schema)
    (hA : mkSchema nmA annA fldA = Except.ok A)
    (hB : mkSchema nmB annB fldB = Except.ok B)
    (haA : (annA.map Prod.fst).Nodup) (hfA : (fldA.map Prod.fst).Nodup)
    (haB : (annB.map Prod.fst).Nodup) (hfB : (fldB.map Prod.fst).Nodup)
    (hrA : ∀ p ∈ fldA, p.2.cd_name = Option.none)
    (hrB : ∀ p ∈ fldB, p.2.cd_name = Option.none) :
    ((∀ k, k ∈ annA.map Prod.fst ++ fldA.map Prod.fst
        → k ∉ annB.map Prod.fst ++ fldB.map Prod.fst) →
      ∃ S, schema_add [A, B] = Except.ok S
        ∧ S.columns.length = A.columns.length + B.columns.length
        ∧ ∀ k, List.lookup k (as_dict S)
            = (List.lookup k (as_dict A)).orElse (fun _ => List.lookup k (as_dict B)))
    ∧ ((∃ k, k ∈ annA.map Prod.fst ∧ k ∈ annB.map Prod.fst) →
        schema_add [A, B] = Except.error PyErr.assertionError)
    ∧ ((∃ k, k ∈ fldA.map Prod.fst ∧ k ∈ fldB.map Prod.fst) →
        schema_add [A, B] = Except.error PyErr.assertionError) := by
  have hnmA : ∀ n ∈ schemaKeys annA fldA, stepName fldA n = n :=
    fun n _ => stepName_of_norename fldA n hrA
  have hnmB : ∀ n ∈ schemaKeys annB fldB, stepName fldB n = n :=
    fun n _ => stepName_of_norename fldB n hrB
  obtain ⟨hsnA, hanA, hflA, hcoA⟩ := mkSchema_spec nmA annA fldA A hA hnmA
  obtain ⟨hsnB, hanB, hflB, hcoB⟩ := mkSchema_spec nmB annB fldB B hB hnmB
  have hchkA := mkSchema_checks nmA annA fldA A hA
  have hchkB := mkSchema_checks nmB annB fldB B hB
  have hkeysA : A.fields.map Prod.fst = fldA.map Prod.fst := by
    rw [hflA]
    exact map_fst_map_rewrite fldA _ _
  have hkeysB : B.fields.map Prod.fst = fldB.map Prod.fst := by
    rw [hflB]
    exact map_fst_map_rewrite fldB _ _
  have hlenA : A.fields.length = fldA.length := by rw [hflA, List.length_map]
  have hlenB : B.fields.length = fldB.length := by rw [hflB, List.length_map]
  refine ⟨?_, ?_, ?_⟩
  · -- disjoint declared keys: success, length and dict union
    intro hdisj
    have hdisjAnn : ∀ k, k ∈ annA.map Prod.fst → k ∉ annB.map Prod.fst := by
      intro k hk hc
      exact hdisj k (by simp [hk]) (by simp [hc])
    have hdisjFld : ∀ k, k ∈ A.fields.map Prod.fst → k ∉ B.fields.map Prod.fst := by
      intro k hk hc
      rw [hkeysA] at hk
      rw [hkeysB] at hc
      exact hdisj k (by simp [hk]) (by simp [hc])
    have h1 : (dictChain [A.annotations, B.annotations]).length
        = A.annotations.length + B.annotations.length := by
      rw [hanA, hanB]
      exact dictChain_pair_length_disjoint annA annB haA haB hdisjAnn
    have h2 : (dictChain [A.fields, B.fields]).length
        = A.fields.length + B.fields.length := by
      apply dictChain_pair_length_disjoint A.fields B.fields
      · rw [hkeysA]; exact hfA
      · rw [hkeysB]; exact hfB
      · exact hdisjFld
    have hadd := schema_add_pair_ok A B h1 h2
    rw [hanA, hanB] at hadd
    -- the chained inputs to the combined construction
    have hCAkeys : (dictChain [annA, annB]).map Prod.fst
        = dedupFirst (annB.map Prod.fst ++ annA.map Prod.fst) := dictChain_pair_keys _ _
    have hCFkeys : (dictChain [A.fields, B.fields]).map Prod.fst
        = dedupFirst (fldB.map Prod.fst ++ fldA.map Prod.fst) := by
      rw [dictChain_pair_keys, hkeysA, hkeysB]
    have hmemnames : ∀ n, n ∈ schemaKeys (dictChain [annA, annB]) (dictChain [A.fields, B.fields])
        ↔ ((n ∈ annA.map Prod.fst ++ fldA.map Prod.fst)
            ∨ (n ∈ annB.map Prod.fst ++ fldB.map Prod.fst)) := by
      intro n
      unfold schemaKeys
      rw [mem_dedupFirst, List.mem_append, hCAkeys, hCFkeys,
        mem_dedupFirst, mem_dedupFirst, List.mem_append, List.mem_append,
        List.mem_append, List.mem_append]
      tauto
    -- per-name facts, side A
    have sideA : ∀ n, n ∈ annA.map Prod.fst ++ fldA.map Prod.fst →
        stepCheck (dictChain [annA, annB]) (dictChain [A.fields, B.fields]) n = true
        ∧ stepCol (dictChain [annA, annB]) (dictChain [A.fields, B.fields]) n
            = stepCol annA fldA n
        ∧ stepName (dictChain [A.fields, B.fields]) n = n := by
      intro n hnA
      have hnB : n ∉ annB.map Prod.fst ++ fldB.map Prod.fst := hdisj n hnA
      have hnn : n ∈ schemaKeys annA fldA := (mem_dedupFirst _ _).mpr hnA
      have hdt : List.lookup n (dictChain [annA, annB]) = List.lookup n annA := by
        rw [dictChain_lookup, firstLookup_pair]
        have hbn : List.lookup n annB = Option.none :=
          lookup_eq_none_of_not_mem annB n (fun hc => hnB (by simp [hc]))
        simp only [hbn]
        cases List.lookup n annA <;> rfl
      have hfl : List.lookup n (dictChain [A.fields, B.fields])
          = List.lookup n (updateField fldA n (stepCol annA fldA n)) := by
        rw [dictChain_lookup, firstLookup_pair]
        have hbn : List.lookup n B.fields = Option.none := by
          apply lookup_eq_none_of_not_mem
          rw [hkeysB]
          exact fun hc => hnB (by simp [hc])
        simp only [hbn]
        have hAn : List.lookup n A.fields
            = List.lookup n (updateField fldA n (stepCol annA fldA n)) := by
          rw [hflA, lookup_map_rewrite, lookup_updateField, if_pos hnn, if_pos rfl]
        rw [hAn]
        cases List.lookup n (updateField fldA n (stepCol annA fldA n)) <;> rfl
      exact side_facts annA (dictChain [annA, annB]) fldA (dictChain [A.fields, B.fields])
        n hdt hfl (hchkA n hnn) (hnmA n hnn)
    -- per-name facts, side B
    have sideB : ∀ n, n ∈ annB.map Prod.fst ++ fldB.map Prod.fst →
        stepCheck (dictChain [annA, annB]) (dictChain [A.fields, B.fields]) n = true
        ∧ stepCol (dictChain [annA, annB]) (dictChain [A.fields, B.fields]) n
            = stepCol annB fldB n
        ∧ stepName (dictChain [A.fields, B.fields]) n = n := by
      intro n hnB
      have hnA : n ∉ annA.map Prod.fst ++ fldA.map Prod.fst := by
        intro hc
        exact hdisj n hc hnB
      have hnn : n ∈ schemaKeys annB fldB := (mem_dedupFirst _ _).mpr hnB
      have hdt : List.lookup n (dictChain [annA, annB]) = List.lookup n annB := by
        rw [dictChain_lookup, firstLookup_pair]
        have han : List.lookup n annA = Option.none :=
          lookup_eq_none_of_not_mem annA n (fun hc => hnA (by simp [hc]))
        simp only [han]
        rfl
      have hfl : List.lookup n (dictChain [A.fields, B.fields])
          = List.lookup n (updateField fldB n (stepCol annB fldB n)) := by
        rw [dictChain_lookup, firstLookup_pair]
        have han : List.lookup n A.fields = Option.none := by
          apply lookup_eq_none_of_not_mem
          rw [hkeysA]
          exact fun hc => hnA (by simp [hc])
        simp only [han]
        have hBn : List.lookup n B.fields
            = List.lookup n (updateField fldB n (stepCol annB fldB n)) := by
          rw [hflB, lookup_map_rewrite, lookup_updateField, if_pos hnn, if_pos rfl]
        rw [hBn]
        rfl
      exact side_facts annB (dictChain [annA, annB]) fldB (dictChain [A.fields, B.fields])
        n hdt hfl (hchkB n hnn) (hnmB n hnn)
    -- combined construction succeeds
    have hndC : (schemaKeys (dictChain [annA, annB]) (dictChain [A.fields, B.fields])).Nodup :=
      dedupFirst_nodup _
    have hchkC : ∀ n ∈ schemaKeys (dictChain [annA, annB]) (dictChain [A.fields, B.fields]),
        stepCheck (dictChain [annA, annB]) (dictChain [A.fields, B.fields]) n = true := by
      intro n hn
      rcases (hmemnames n).mp hn with h | h
      · exact (sideA n h).1
      · exact (sideB n h).1
    have hnmC : ∀ n ∈ schemaKeys (dictChain [annA, annB]) (dictChain [A.fields, B.fields]),
        stepName (dictChain [A.fields, B.fields]) n = n := by
      intro n hn
      rcases (hmemnames n).mp hn with h | h
      · exact (sideA n h).2.2
      · exact (sideB n h).2.2
    have hproc := processColumns_spec (dictChain [annA, annB])
      (schemaKeys (dictChain [annA, annB]) (dictChain [A.fields, B.fields]))
      (dictChain [A.fields, B.fields]) [] hndC hchkC hnmC
      (by intro n _ hc; simp at hc)
    have hmk : mkSchema (String.intercalate "_" [A.sname, B.sname])
        (dictChain [annA, annB]) (dictChain [A.fields, B.fields])
        = Except.ok ⟨String.intercalate "_" [A.sname, B.sname],
            dictChain [annA, annB],
            (dictChain [A.fields, B.fields]).map
              (fun p => if p.1 ∈ schemaKeys (dictChain [annA, annB]) (dictChain [A.fields, B.fields])
                then (p.1, stepCol (dictChain [annA, annB]) (dictChain [A.fields, B.fields]) p.1) else p),
            (schemaKeys (dictChain [annA, annB]) (dictChain [A.fields, B.fields])).map
              (fun n => (n, stepCol (dictChain [annA, annB]) (dictChain [A.fields, B.fields]) n))⟩ := by
      unfold mkSchema
      rw [hproc]
      simp
    refine ⟨_, hadd.trans hmk, ?_, ?_⟩
    · -- column count
      show ((schemaKeys (dictChain [annA, annB]) (dictChain [A.fields, B.fields])).map
          (fun n => (n, stepCol (dictChain [annA, annB]) (dictChain [A.fields, B.fields]) n))).length
        = A.columns.length + B.columns.length
      rw [List.length_map, hcoA, hcoB, List.length_map, List.length_map]
      unfold schemaKeys
      rw [dedupFirst_length, dedupFirst_length, dedupFirst_length,
        List.toFinset_append, hCAkeys, hCFkeys, dedupFirst_toFinset, dedupFirst_toFinset,
        List.toFinset_append, List.toFinset_append, List.toFinset_append, List.toFinset_append]
      have hset : ((annB.map Prod.fst).toFinset ∪ (annA.map Prod.fst).toFinset)
            ∪ ((fldB.map Prod.fst).toFinset ∪ (fldA.map Prod.fst).toFinset)
          = ((annA.map Prod.fst).toFinset ∪ (fldA.map Prod.fst).toFinset)
            ∪ ((annB.map Prod.fst).toFinset ∪ (fldB.map Prod.fst).toFinset) := by
        ext x
        simp only [Finset.mem_union]
        tauto
      rw [hset]
      apply Finset.card_union_of_disjoint
      rw [Finset.disjoint_left]
      intro x hx hy
      apply hdisj x
      · rcases Finset.mem_union.mp hx with h | h
        · simp [List.mem_toFinset.mp h]
        · simp [List.mem_toFinset.mp h]
      · rcases Finset.mem_union.mp hy with h | h
        · simp [List.mem_toFinset.mp h]
        · simp [List.mem_toFinset.mp h]
    · -- as_dict union
      intro k
      have hdictS : List.lookup k (as_dict ⟨String.intercalate "_" [A.sname, B.sname],
            dictChain [annA, annB],
            (dictChain [A.fields, B.fields]).map
              (fun p => if p.1 ∈ schemaKeys (dictChain [annA, annB]) (dictChain [A.fields, B.fields])
                then (p.1, stepCol (dictChain [annA, annB]) (dictChain [A.fields, B.fields]) p.1) else p),
            (schemaKeys (dictChain [annA, annB]) (dictChain [A.fields, B.fields])).map
              (fun n => (n, stepCol (dictChain [annA, annB]) (dictChain [A.fields, B.fields]) n))⟩)
          = if k ∈ schemaKeys (dictChain [annA, annB]) (dictChain [A.fields, B.fields])
            then some ((stepCol (dictChain [annA, annB]) (dictChain [A.fields, B.fields]) k).dtype)
            else Option.none := by
        unfold as_dict
        simp only [List.map_map]
        exact lookup_map_keys _ _ k
      have hdictA : List.lookup k (as_dict A)
          = if k ∈ schemaKeys annA fldA then some ((stepCol annA fldA k).dtype)
            else Option.none := by
        unfold as_dict
        rw [hcoA]
        simp only [List.map_map]
        exact lookup_map_keys _ _ k
      have hdictB : List.lookup k (as_dict B)
          = if k ∈ schemaKeys annB fldB then some ((stepCol annB fldB k).dtype)
            else Option.none := by
        unfold as_dict
        rw [hcoB]
        simp only [List.map_map]
        exact lookup_map_keys _ _ k
      rw [hdictS, hdictA, hdictB]
      by_cases hkA : k ∈ annA.map Prod.fst ++ fldA.map Prod.fst
      · have hkC : k ∈ schemaKeys (dictChain [annA, annB]) (dictChain [A.fields, B.fields]) :=
          (hmemnames k).mpr (Or.inl hkA)
        have hkAn : k ∈ schemaKeys annA fldA := (mem_dedupFirst _ _).mpr hkA
        rw [if_pos hkC, if_pos hkAn, (sideA k hkA).2.1]
        rfl
      · have hkAn : k ∉ schemaKeys annA fldA := fun hc => hkA ((mem_dedupFirst _ _).mp hc)
        rw [if_neg hkAn]
        by_cases hkB : k ∈ annB.map Prod.fst ++ fldB.map Prod.fst
        · have hkC : k ∈ schemaKeys (dictChain [annA, annB]) (dictChain [A.fields, B.fields]) :=
            (hmemnames k).mpr (Or.inr hkB)
          have hkBn : k ∈ schemaKeys annB fldB := (mem_dedupFirst _ _).mpr hkB
          rw [if_pos hkC, if_pos hkBn, (sideB k hkB).2.1]
          rfl
        · have hkC : k ∉ schemaKeys (dictChain [annA, annB]) (dictChain [A.fields, B.fields]) := by
            intro hc
            rcases (hmemnames k).mp hc with h | h
            · exact hkA h
            · exact hkB h
          have hkBn : k ∉ schemaKeys annB fldB := fun hc => hkB ((mem_dedupFirst _ _).mp hc)
          rw [if_neg hkC, if_neg hkBn]
          rfl
  · -- duplicated annotation key: the first assert fires
    intro ⟨k, hk1, hk2⟩
    apply schema_add_pair_err_ann
    rw [hanA, hanB]
    exact Nat.ne_of_lt (dictChain_pair_length_lt annA annB haA haB k hk1 hk2)
  · -- duplicated field key: the second assert fires (or the first already did)
    intro ⟨k, hk1, hk2⟩
    apply schema_add_pair_err_fld
    apply Nat.ne_of_lt
    apply dictChain_pair_length_lt A.fields B.fields
    · rw [hkeysA]; exact hfA
    · rw [hkeysB]; exact hfB
    · rw [hkeysA]; exact hk1
    · rw [hkeysB]; exact hk2

/-- `class A(Schema): k: int` -/
def cexA : Schema :=
  ⟨"A", [("k", DType.int)], [], [("k", ⟨false, Option.none, some DType.int, Option.none⟩)]⟩

/-- `class B(Schema): k = column_definition(name="z")` (post-construction,
the field's dtype was filled in place with `Any`). -/
def cexB : Schema :=
  ⟨"B", [], [("k", ⟨false, Option.none, some DType.anyType, some "z"⟩)],
    [("z", ⟨false, Option.none, some DType.anyType, some "z"⟩)]⟩

/-- `class A1(Schema): k: Any` -/
def cexA1 : Schema :=
  ⟨"A1", [("k", DType.anyType)], [],
    [("k", ⟨false, Option.none, some DType.anyType, Option.none⟩)]⟩

/-- `class B1(Schema): k = column_definition()` -/
def cexB1 : Schema :=
  ⟨"B1", [], [("k", ⟨false, Option.none, some DType.anyType, Option.none⟩)],
    [("k", ⟨false, Option.none, some DType.anyType, Option.none⟩)]⟩

/-- C2 fails as stated, in both directions.  `cexA` and `cexB` are valid
schemas with disjoint column-name sets (`k` versus the renamed `z`), yet
`schema_add` raises a `TypeError` instead of succeeding with two columns.
`cexA1` and `cexB1` both declare the column name `k`, yet `schema_add`
succeeds and silently merges the two declarations into a single column. -/
theorem claim_C2_counterexample :
    (mkSchema "A" [("k", DType.int)] [] = Except.ok cexA
      ∧ mkSchema "B" [] [("k", column_definition false Option.none Option.none (some "z"))]
          = Except.ok cexB
      ∧ column_names cexA = ["k"]
      ∧ column_names cexB = ["z"]
      ∧ schema_add [cexA, cexB] = Except.error PyErr.typeError)
    ∧ (mkSchema "A1" [("k", DType.anyType)] [] = Except.ok cexA1
      ∧ mkSchema "B1" [] [("k", column_definition false Option.none Option.none Option.none)]
          = Except.ok cexB1
      ∧ column_names cexA1 = ["k"]
      ∧ column_names cexB1 = ["k"]
      ∧ schema_add [cexA1, cexB1]
          = Except.ok ⟨"A1_B1", [("k", DType.anyType)],
              [("k", ⟨false, Option.none, some DType.anyType, Option.none⟩)],
              [("k", ⟨false, Option.none, some DType.anyType, Option.none⟩)]⟩) := by
  decide

/-- `class WA(Schema): a: int` -/
def witA : Schema :=
  ⟨"WA", [("a", DType.int)], [], [("a", ⟨false, Option.none, some DType.int, Option.none⟩)]⟩

/-- `class WB(Schema): b: str` -/
def witB : Schema :=
  ⟨"WB", [("b", DType.str)], [], [("b", ⟨false, Option.none, some DType.str, Option.none⟩)]⟩

/-- Witness for the amended C2 at two concrete disjoint schemas. -/
theorem claim_C2_witness :
    ∃ S, schema_add [witA, witB] = Except.ok S
      ∧ S.columns.length = witA.columns.length + witB.columns.length
      ∧ ∀ k, List.lookup k (as_dict S)
          = (List.lookup k (as_dict witA)).orElse (fun _ => List.lookup k (as_dict witB)) :=
  (claim_C2 "WA" "WB" [("a", DType.int)] [("b", DType.str)] [] [] witA witB
    (by decide) (by decide) (by decide) (by decide) (by decide) (by decide)
    (by decide) (by decide)).1
    (by intro k hk; simp at hk; subst hk; decide)

end PathwaySpec
